import Mathlib

/-!
Shallow embedding of the email ingestion and reconciliation engine of the
shipment-email-merger backend, together with proofs about it: group-identifier
extraction and fuzzy matching (utils/email-group-id), spam and relevance
classification (email-parser.service), the grouping algorithm
(email-grouper.service), the merge of overlapping fetch results and the
targeted lookup (email-processor.service), incremental persistence
(email-base.service, email-full-sync.service) over an abstract store, and the
in-memory resource lock registry (utils/lock-utils).

Machine integers of the source are embedded as Nat (timestamps, lengths) and
the floating-point similarity score as an exact rational; JS Map objects are
embedded as association lists in insertion order.
-/

/-- Membership in the JS regex class \d (the ASCII digits 0-9). -/
def isDigitChar (c : Char) : Bool := c.isDigit

/-- Membership in the JS regex word class \w, used for the word boundary \b. -/
def isWordChar (c : Char) : Bool := c.isAlphanum || c == '_'

/-- Membership in the JS regex class \s (whitespace). -/
def isSpaceChar (c : Char) : Bool := c.isWhitespace

/-- Char-by-char lower-casing: the embedding of String.prototype.toLowerCase,
which agrees with it on the ASCII alphabet used by the patterns and keyword
lists. -/
def jsToLower (s : String) : String := String.mk (s.data.map Char.toLower)

/-- Char-by-char upper-casing (String.prototype.toUpperCase on ASCII). -/
def jsToUpper (s : String) : String := String.mk (s.data.map Char.toUpper)

/-- The needle occurs at the start of the haystack. -/
def isPrefixList : List Char → List Char → Bool
  | [], _ => true
  | _ :: _, [] => false
  | a :: xs, b :: ys => a == b && isPrefixList xs ys

/-- The needle occurs somewhere in the haystack. -/
def containsList : List Char → List Char → Bool
  | [], needle => isPrefixList needle []
  | c :: t, needle => isPrefixList needle (c :: t) || containsList t needle

/-- String.prototype.includes: hay contains needle as a contiguous substring. -/
def jsIncludes (hay needle : String) : Bool := containsList hay.data needle.data

/-- Leftmost match of the JS regex \d{6,8}: at each start position take the run
of consecutive digits; the position matches when the run has length at least 6,
and the greedy bounded quantifier keeps at most 8 of it. -/
def findDigitRun : List Char → Option (List Char)
  | [] => none
  | c :: cs =>
    let run := (c :: cs).takeWhile isDigitChar
    if 6 ≤ run.length then some (run.take 8) else findDigitRun cs

/-- EmailGroupId.normalizeEmailGroupId: the empty string is returned as is;
otherwise the first 6-8 digit run is extracted, and when no such run exists the
input is returned unchanged. -/
def normalizeEmailGroupId (id : String) : String :=
  if id = "" then id
  else
    match findDigitRun id.data with
    | some r => String.mk r
    | none => id

/-- Case-insensitive strip of a (lowercase) pattern word from the front of the
input; returns the remaining input on success. -/
def stripCI : List Char → List Char → Option (List Char)
  | [], cs => some cs
  | _ :: _, [] => none
  | p :: ps, c :: cs => if c.toLower == p then stripCI ps cs else none

/-- One attempt of the pattern \bShipment\s*[#]\s*(\d{6,8})\b (with the i flag)
at a fixed start position; prev is the char just before that position, for the
leading word boundary. Returns the digit run of the match. The trailing word
boundary makes a position fail when the digit run is longer than 8 or is
followed directly by a word char. -/
def matchShipmentAt (prev : Option Char) (cs : List Char) : Option (List Char) :=
  if (match prev with | some p => isWordChar p | none => false) then none
  else
    match stripCI "shipment".data cs with
    | none => none
    | some rest1 =>
      let rest2 := rest1.dropWhile isSpaceChar
      match rest2 with
      | '#' :: rest3 =>
        let rest4 := rest3.dropWhile isSpaceChar
        let run := rest4.takeWhile isDigitChar
        let boundaryOk := match rest4.drop run.length with
          | [] => true
          | c2 :: _ => !(isWordChar c2)
        if 6 ≤ run.length ∧ run.length ≤ 8 ∧ boundaryOk = true then some run
        else none
      | _ => none

/-- Scan of the text trying the pattern at every position, leftmost match wins
(the JS regex search order). -/
def extractScan (prev : Option Char) : List Char → Option (List Char)
  | [] => none
  | c :: cs =>
    match matchShipmentAt prev (c :: cs) with
    | some r => some r
    | none => extractScan (some c) cs

/-- EmailGroupId.extractEmailGroupIdFromText: empty text yields null; otherwise
the digit run of the leftmost match of the shipment pattern. -/
def extractEmailGroupIdFromText (text : String) : Option String :=
  if text = "" then none
  else (extractScan none text.data).map String.mk

/-- Inner loop (index j) of the dynamic-programming matrix fill of
EmailGroupId.levenshteinDistance: pd is the entry (i-1, j-1), prest continues
with (i-1, j), and left is the entry (i, j-1) computed just before. -/
def levRowAux (a : Char) : List Char → List Nat → Nat → List Nat
  | [], _, _ => []
  | _ :: _, [], _ => []
  | b :: bs, pd :: prest, left =>
    let here := min (prest.headD 0 + 1) (min (left + 1) (pd + (if a == b then 0 else 1)))
    here :: levRowAux a bs prest here

/-- EmailGroupId.levenshteinDistance: the (m+1) x (n+1) dynamic-programming
matrix computed row by row; row 0 is 0..n, each next row starts with i and is
filled by levRowAux; the distance is the last entry of the last row. -/
def levenshteinDistance (str1 str2 : String) : Nat :=
  let firstRow := List.range (str2.length + 1)
  let lastRow := str1.data.foldl
    (fun prev a =>
      let left := prev.headD 0 + 1
      left :: levRowAux a str2.data prev left)
    firstRow
  lastRow.getLastD 0

/-- Similarity threshold 0.8: the default of findBestFuzzyMatch and the value
of getSimilarityThreshold in the grouper. -/
def similarityThreshold : ℚ := mkRat 4 5

/-- EmailGroupId.calculateSimilarity: 1 - distance/maxLength as an exact
rational, clamped into [0, 1], with the two early returns of the source
(equal strings give 1, an empty side gives 0). -/
def calculateSimilarity (str1 str2 : String) : ℚ :=
  if str1 = str2 then 1
  else if str1.length = 0 ∨ str2.length = 0 then 0
  else
    let distance := levenshteinDistance str1 str2
    let maxLength := max str1.length str2.length
    let similarity : ℚ := 1 - (distance : ℚ) / (maxLength : ℚ)
    max 0 (min 1 similarity)

/-- The bestMatch/bestScore accumulator loop of EmailGroupId.findBestFuzzyMatch:
a candidate replaces the current best only with a strictly larger score that
also reaches the threshold. -/
def fuzzyLoop (nid : String) (threshold : ℚ) : List String → Option String → ℚ → Option String
  | [], best, _ => best
  | e :: rest, best, bestScore =>
    let s := calculateSimilarity nid e
    if bestScore < s ∧ threshold ≤ s then fuzzyLoop nid threshold rest (some e) s
    else fuzzyLoop nid threshold rest best bestScore

/-- EmailGroupId.findBestFuzzyMatch: the probe is normalized first; an exact
member short-circuits; otherwise the accumulator loop over existingIds. -/
def findBestFuzzyMatch (id : String) (existingIds : List String) (threshold : ℚ) : Option String :=
  let normalizedId := normalizeEmailGroupId id
  if existingIds.contains normalizedId then some normalizedId
  else fuzzyLoop normalizedId threshold existingIds none 0

/-- Result of String.prototype.split on a single separator char. -/
def splitChar (sep : Char) : List Char → List (List Char)
  | [] => [[]]
  | c :: cs =>
    let r := splitChar sep cs
    if c == sep then [] :: r
    else
      match r with
      | s :: rest => (c :: s) :: rest
      | [] => [[c]]

/-- EmailUtilsService.extractEmailDomain: the segment after the first at-sign
of the address, or the empty string. -/
def extractEmailDomain (email : String) : String :=
  match splitChar '@' email.data with
  | _ :: d :: _ => String.mk d
  | _ => ""

/-- The denylist of EmailUtilsService.isSpamDomain. -/
def spamDomains : List String :=
  ["linkedin.com", "indeed.com", "hh.ru", "career.habr.com", "newsletter", "promo"]

/-- EmailUtilsService.isSpamDomain: the domain contains one of the denylist
entries as a substring. -/
def isSpamDomain (domain : String) : Bool :=
  spamDomains.any (fun spamDomain => jsIncludes domain spamDomain)

/-- The relevance keyword allowlist of EmailParserService.isRelevantEmail. -/
def relevantKeywords : List String :=
  ["заказ", "доставк", "отправлени", "tracking", "emailGroup",
   "доставка", "отслеживан", "накладная", "трек", "номер",
   "посылка", "отправка", "курьер", "почта", "delivery",
   "order", "parcel", "package"]

/-- The spam keyword list of EmailParserService.isSpamEmail. -/
def spamKeywords : List String :=
  ["безопасност", "аккаунт", "восстановл", "вход", "оповещение", "security alert",
   "vacancy", "ваканс", "linkedin", "job", "работа",
   "promotion", "promo", "акция", "распродаж",
   "newsletter", "рассылка",
   "unsubscribe", "отписаться",
   "advertisement", "реклама",
   "news", "новости", "spam"]

/-- IEmail: the persisted message record (dbData of a parsed email). The JS
field named from is fromText here, to is toText; the date is an epoch
timestamp; status holds one of the four lifecycle strings. The optional text
field is the empty string when absent (dbData carries no text). -/
structure IEmail where
  id : String
  fromText : String
  toText : String
  subject : String
  date : Nat
  emailGroupId : String
  status : String
  text : String
deriving DecidableEq

/-- IParsedEmail: dbData plus the ui text. Attachments are not modelled: no
classification, grouping, merge or diff step reads them. -/
structure IParsedEmail where
  dbData : IEmail
  uiDataText : String
deriving DecidableEq

/-- EmailParserService.isSpamEmail: a spam keyword occurs in the lowercased
subject or body, or the sender domain matches the denylist. -/
def isSpamEmail (email : IParsedEmail) : Bool :=
  let subject := jsToLower email.dbData.subject
  let fromL := jsToLower email.dbData.fromText
  let text := jsToLower email.uiDataText
  let domain := extractEmailDomain fromL
  let hasSpamDomain := isSpamDomain domain
  let hasSpamKeyword := spamKeywords.any (fun k => jsIncludes subject k || jsIncludes text k)
  hasSpamKeyword || hasSpamDomain

/-- EmailParserService.isRelevantEmail: spam is rejected first; otherwise a
relevance keyword in subject or body, or a known (non-unknown) group id. -/
def isRelevantEmail (email : IParsedEmail) : Bool :=
  if isSpamEmail email then false
  else
    let subject := jsToLower email.dbData.subject
    let text := jsToLower email.uiDataText
    let hasKeyword := relevantKeywords.any (fun k => jsIncludes subject k || jsIncludes text k)
    let hasEmailGroupId := email.dbData.emailGroupId != "" && email.dbData.emailGroupId != "unknown"
    hasKeyword || hasEmailGroupId

/-- An attachment of a raw fetched message (FetchedEmail interface). -/
structure FetchedAttachment where
  id : String
  filename : String
  content : List Nat
  contentType : String
  size : Nat
deriving DecidableEq

/-- FetchedEmail: a raw message from the IMAP fetcher. The JS field named from
is fromText, to is toText; text is optional in the source. -/
structure FetchedEmail where
  id : String
  fromText : String
  toText : String
  subject : String
  date : Nat
  text : Option String
  attachments : List FetchedAttachment
deriving DecidableEq

/-- The shape produced by EmailProcessorService.convertFetchedToParsedFormat,
as consumed by parseEmail (the from/to address objects are collapsed through
getAddressText, which returns their text field; attachment payloads are not
modelled). -/
structure ConvertedEmail where
  messageId : String
  subject : String
  fromText : String
  toText : String
  date : Nat
  text : String
deriving DecidableEq

/-- EmailProcessorService.convertFetchedToParsedFormat on one message. -/
def convertFetchedToParsedFormat (f : FetchedEmail) : ConvertedEmail :=
  { messageId := f.id, subject := f.subject, fromText := f.fromText,
    toText := f.toText, date := f.date, text := f.text.getD "" }

/-- EmailParserService.parseEmail: the group id is extracted from the raw
subject; the message id falls back to a freshly generated identifier
(fallbackId here) when absent; the stored subject falls back to No subject;
status starts at not_processed. dbData carries no text field. -/
def parseEmail (fallbackId : String) (parsed : ConvertedEmail) : IParsedEmail :=
  let subjectText := parsed.subject
  let primaryEmailGroupId := (extractEmailGroupIdFromText subjectText).getD "unknown"
  let messageId := if parsed.messageId != "" then parsed.messageId else fallbackId
  { dbData :=
      { id := messageId, fromText := parsed.fromText, toText := parsed.toText,
        subject := if parsed.subject != "" then parsed.subject else "No subject",
        date := parsed.date, emailGroupId := primaryEmailGroupId,
        status := "not_processed", text := "" },
    uiDataText := parsed.text }

/-- JS Map get: the value stored under the key. -/
def mapGet {α : Type} (m : List (String × α)) (k : String) : Option α :=
  (m.find? (fun p => p.1 == k)).map (fun p => p.2)

/-- JS Map set: replaces the value in place when the key is present, otherwise
appends the new pair at the end (insertion order). -/
def mapSet {α : Type} (m : List (String × α)) (k : String) (v : α) : List (String × α) :=
  if m.any (fun p => p.1 == k) then m.map (fun p => if p.1 == k then (k, v) else p)
  else m ++ [(k, v)]

/-- Push of one email onto the bucket stored under a key (get-then-push on the
JS Map of the grouper, creating the bucket when absent). -/
def bucketPush (m : List (String × List IEmail)) (k : String) (e : IEmail) : List (String × List IEmail) :=
  mapSet m k ((mapGet m k).getD [] ++ [e])

/-- EmailGrouperService.normalizeEmailGroups: emails holding a non-unknown id
whose normalized form has at least 6 chars are bucketed under that normal
form, in input order. -/
def normalizeEmailGroups (emails : List IEmail) : List (String × List IEmail) :=
  emails.foldl
    (fun buckets email =>
      if email.emailGroupId == "" || email.emailGroupId == "unknown" then buckets
      else
        let normalizedId := normalizeEmailGroupId email.emailGroupId
        if normalizedId == "" || normalizedId.length < 6 then buckets
        else bucketPush buckets normalizedId email)
    []

/-- EmailGrouperService.extractEmailGroupIdFromContent: the pattern applied to
the lowercased subject-plus-text. -/
def extractEmailGroupIdFromContent (email : IEmail) : Option String :=
  extractEmailGroupIdFromText (jsToLower (email.subject ++ " " ++ email.text))

/-- EmailGrouperService.assignEmailToGroup: fuzzy-match the candidate id
against the existing bucket keys; attach to the best match or open a new
bucket under the candidate id. -/
def assignEmailToGroup (email : IEmail) (potentialId : String) (buckets : List (String × List IEmail)) : List (String × List IEmail) :=
  match findBestFuzzyMatch potentialId (buckets.map (fun p => p.1)) similarityThreshold with
  | some bestMatch => bucketPush buckets bestMatch email
  | none => mapSet buckets potentialId [email]

/-- EmailGrouperService.processUngroupedEmails: for each email without an id,
re-extract a candidate from the content; drop the email when none is found or
the normalized candidate is shorter than 6; otherwise assign. -/
def processUngroupedEmails (ungroupedEmails : List IEmail) (buckets : List (String × List IEmail)) : List (String × List IEmail) :=
  ungroupedEmails.foldl
    (fun buckets email =>
      match extractEmailGroupIdFromContent email with
      | none => buckets
      | some potentialId =>
        let normalizedPotentialId := normalizeEmailGroupId potentialId
        if normalizedPotentialId == "" || normalizedPotentialId.length < 6 then buckets
        else assignEmailToGroup email normalizedPotentialId buckets)
    buckets

/-- IEmailGroup: a shipment group row (members live behind a foreign key). -/
structure IEmailGroup where
  emailGroupId : String
  createdAt : Nat
  updatedAt : Nat
deriving DecidableEq

/-- Descending order on updatedAt, the comparator of the final sort. -/
def groupDesc (a b : IEmailGroup) : Prop := b.updatedAt ≤ a.updatedAt

instance : DecidableRel groupDesc := fun a b => Nat.decLe b.updatedAt a.updatedAt

instance : IsTotal IEmailGroup groupDesc := ⟨fun a b => Nat.le_total b.updatedAt a.updatedAt⟩

instance : IsTrans IEmailGroup groupDesc := ⟨fun _ _ _ h1 h2 => Nat.le_trans h2 h1⟩

/-- EmailGrouperService.createEmailGroup: the member dates sorted ascending;
createdAt is the first, updatedAt the last. -/
def createEmailGroup (emailGroupId : String) (emailList : List IEmail) : IEmailGroup :=
  let dates := List.insertionSort (fun a b => a ≤ b) (emailList.map (fun e => e.date))
  { emailGroupId := emailGroupId, createdAt := dates.headD 0, updatedAt := dates.getLastD 0 }

/-- EmailGrouperService.createFinalEmailGroups: one group per non-empty bucket
in insertion order, then sorted by updatedAt descending. -/
def createFinalEmailGroups (normalizedGroups : List (String × List IEmail)) : List IEmailGroup :=
  let emailGroups := (normalizedGroups.filter (fun p => 1 ≤ p.2.length)).map
    (fun p => createEmailGroup p.1 p.2)
  List.insertionSort groupDesc emailGroups

/-- The bucket map the grouper hands to createFinalEmailGroups: explicit-id
buckets extended by the fuzzy pass over the id-less emails. -/
def groupBuckets (emails : List IEmail) : List (String × List IEmail) :=
  let normalizedGroups := normalizeEmailGroups emails
  let ungroupedEmails := emails.filter
    (fun e => e.emailGroupId == "" || e.emailGroupId == "unknown")
  processUngroupedEmails ungroupedEmails normalizedGroups

/-- EmailGrouperService.groupEmailsByEmailGroup. -/
def groupEmailsByEmailGroup (emails : List IEmail) : List IEmailGroup :=
  createFinalEmailGroups (groupBuckets emails)

/-- One step of the id-keyed Map fill in
EmailProcessorService.mergeFetchedEmails: a message with a falsy (empty) id is
skipped, any other overwrites the entry under its id. -/
def insertFetched (m : List (String × FetchedEmail)) (email : FetchedEmail) : List (String × FetchedEmail) :=
  if email.id != "" then mapSet m email.id email else m

/-- EmailProcessorService.mergeFetchedEmails: the extended-set messages are
written into the Map first, then the initial-set messages (overwriting on id
collision); the result is the values in insertion order. -/
def mergeFetchedEmails (initialEmails extendedEmails : List FetchedEmail) : List FetchedEmail :=
  let m1 := extendedEmails.foldl insertFetched []
  let m2 := initialEmails.foldl insertFetched m1
  m2.map (fun p => p.2)

/-- Parse-and-filter step shared by both processor entry points: convert each
fetched message, parse it, and keep the relevant ones. The freshly generated
fallback identifier (Date.now plus random in the source) is modelled by the
position index. -/
def parseFetchedEmails (fetchedEmails : List FetchedEmail) : List IParsedEmail :=
  (fetchedEmails.enum.map
    (fun p => parseEmail ("msg-" ++ toString p.1) (convertFetchedToParsedFormat p.2))).filter
    isRelevantEmail

/-- EmailProcessorService.getGroupedEmailGroupsByEmailGroupId, with the fetch
modelled as an input list: parse and filter the fetched messages, group them,
and keep only groups whose uppercased code contains the uppercased requested
code. -/
def getGroupedEmailGroupsByEmailGroupId (fetchedEmails : List FetchedEmail) (emailGroupId : String) : List IEmailGroup :=
  let parsedEmails := parseFetchedEmails fetchedEmails
  let emailsForGrouping := parsedEmails.map (fun p => p.dbData)
  let emailGroups := groupEmailsByEmailGroup emailsForGrouping
  emailGroups.filter (fun s => jsIncludes (jsToUpper s.emailGroupId) (jsToUpper emailGroupId))

/-- A persisted email-group row: owning user and the updatedAt timestamp. -/
structure GroupRec where
  userId : Option Nat
  updatedAt : Nat
deriving DecidableEq

/-- The slice of the relational store the sync reads and writes: persisted
message rows (message id with owning group id) and group rows, keyed by id. -/
structure Store where
  emails : List (String × String)
  groups : List (String × GroupRec)
deriving DecidableEq

/-- EmailRepository.getEmailByMessageId, as a presence check. -/
def getEmailByMessageId (db : Store) (id : String) : Bool :=
  db.emails.any (fun p => p.1 == id)

/-- EmailBaseService.saveSingleEmailIfNew: persists the email (via
saveEmailsWithAttachments, whose upsert reports created for an absent id) only
when no row with its message id exists, and reports whether it did. -/
def saveSingleEmailIfNew (emailGroupId : String) (parsedEmail : IParsedEmail) (db : Store) : Bool × Store :=
  if getEmailByMessageId db parsedEmail.dbData.id then (false, db)
  else (true, { db with emails := db.emails ++ [(parsedEmail.dbData.id, emailGroupId)] })

/-- EmailBaseService.updateGroupTimestamp: when the group row exists, upsert it
with the same user and a fresh updatedAt. -/
def updateGroupTimestamp (emailGroupId : String) (now : Nat) (db : Store) : Store :=
  match mapGet db.groups emailGroupId with
  | some r => { db with groups := mapSet db.groups emailGroupId { r with updatedAt := now } }
  | none => db

/-- The per-email loop of EmailBaseService.saveOnlyNewEmails, counting the
saves. -/
def saveEmailsLoop (emailGroupId : String) : List IParsedEmail → Store → Nat × Store
  | [], db => (0, db)
  | parsedEmail :: rest, db =>
    let r1 := saveSingleEmailIfNew emailGroupId parsedEmail db
    let r2 := saveEmailsLoop emailGroupId rest r1.2
    ((if r1.1 then 1 else 0) + r2.1, r2.2)

/-- EmailBaseService.saveOnlyNewEmails: the save loop, then a group-timestamp
bump exactly when at least one email was saved; returns the saved count. -/
def saveOnlyNewEmails (emailGroupId : String) (parsedEmails : List IParsedEmail) (now : Nat) (db : Store) : Nat × Store :=
  let r := saveEmailsLoop emailGroupId parsedEmails db
  if 0 < r.1 then (r.1, updateGroupTimestamp emailGroupId now r.2) else r

/-- EmailBaseService.saveEmailGroupWithSummary, reduced to the group row: an
existing group is left untouched (created = false), an absent one is created. -/
def saveEmailGroupWithSummary (emailGroupId : String) (userId : Option Nat) (now : Nat) (db : Store) : Bool × Store :=
  match mapGet db.groups emailGroupId with
  | some _ => (false, db)
  | none => (true, { db with groups := db.groups ++ [(emailGroupId, { userId := userId, updatedAt := now })] })

/-- EmailFullSyncService.processSingleEmailGroup: create-or-get the group, then
save only the new emails whose extracted group id matches it. -/
def processSingleEmailGroup (userId : Option Nat) (now : Nat) (emailGroup : IEmailGroup) (parsedEmails : List IParsedEmail) (db : Store) : (Bool × Nat) × Store :=
  let r1 := saveEmailGroupWithSummary emailGroup.emailGroupId userId now db
  let groupParsedEmails := parsedEmails.filter
    (fun p => p.dbData.emailGroupId == emailGroup.emailGroupId)
  let r2 := saveOnlyNewEmails emailGroup.emailGroupId groupParsedEmails now r1.2
  ((r1.1, r2.1), r2.2)

/-- The counters returned by EmailFullSyncService.processAllEmailGroups. -/
structure SyncResult where
  created : Nat
  updated : Nat
  newEmails : Nat
  createdGroups : List String
  updatedGroups : List String
deriving DecidableEq

/-- EmailFullSyncService.processAllEmailGroups: process each grouped result in
order (skipping groups with a falsy id), counting created versus updated
groups and accumulating the new-email total. -/
def processAllEmailGroups (userId : Option Nat) (now : Nat) : List IEmailGroup → List IParsedEmail → Store → SyncResult × Store
  | [], _, db =>
    ({ created := 0, updated := 0, newEmails := 0, createdGroups := [], updatedGroups := [] }, db)
  | g :: rest, parsedEmails, db =>
    if g.emailGroupId == "" then processAllEmailGroups userId now rest parsedEmails db
    else
      let r := processSingleEmailGroup userId now g parsedEmails db
      let tail := processAllEmailGroups userId now rest parsedEmails r.2
      ({ created := (if r.1.1 then 1 else 0) + tail.1.created,
         updated := (if r.1.1 then 0 else 1) + tail.1.updated,
         newEmails := r.1.2 + tail.1.newEmails,
         createdGroups := (if r.1.1 then [g.emailGroupId] else []) ++ tail.1.createdGroups,
         updatedGroups := (if r.1.1 then [] else [g.emailGroupId]) ++ tail.1.updatedGroups },
       tail.2)

/-- LockUtils.DEFAULT_TIMEOUT (ms). -/
def lockDefaultTimeout : Nat := 30000

/-- A registry entry of LockUtils: the in-flight promise is identified by the
id of the operation it runs (opId); timestamp is the acquisition time. The
timeoutMs the operation was started with is carried for specification purposes
only; no registry operation reads it. -/
structure LockEntry where
  opId : Nat
  timestamp : Nat
  timeoutMs : Nat
deriving DecidableEq

/-- The lock registry plus the log of operations that were actually started
(each acquireLock that finds no live lock appends its operation here). -/
structure LockState where
  locks : List (String × LockEntry)
  started : List Nat
deriving DecidableEq

/-- LockUtils.cleanupExpiredLocks: drops every entry older than
DEFAULT_TIMEOUT + 10000 ms, judging all entries by that fixed bound. -/
def cleanupExpiredLocks (now : Nat) (s : LockState) : LockState :=
  { s with locks := s.locks.filter (fun p => now - p.2.timestamp ≤ lockDefaultTimeout + 10000) }

/-- LockUtils.acquireLock, synchronous part: after the lazy sweep, an existing
entry is returned as is (its in-flight promise, no new execution); otherwise
the operation starts and is registered under the key with the current time. -/
def acquireLock (key : String) (opId : Nat) (timeoutMs : Nat) (now : Nat) (s : LockState) : Nat × LockState :=
  let s1 := cleanupExpiredLocks now s
  match s1.locks.lookup key with
  | some e => (e.opId, s1)
  | none =>
    (opId,
      { locks := s1.locks ++ [(key, { opId := opId, timestamp := now, timeoutMs := timeoutMs })],
        started := s1.started ++ [opId] })

/-- LockUtils.hasLock: sweeps, then reports whether the key is held (the state
after the sweep is returned too, since the sweep mutates the registry). -/
def hasLock (key : String) (now : Nat) (s : LockState) : Bool × LockState :=
  let s1 := cleanupExpiredLocks now s
  (((s1.locks.lookup key)).isSome, s1)

/-- A sequence of acquireLock calls for one key (opId, timeoutMs, call time),
returning every result in order: the embedding of N callers racing on the
same key (the JS event loop serializes their synchronous sections). -/
def acquireMany (key : String) : List (Nat × Nat × Nat) → LockState → List Nat × LockState
  | [], s => ([], s)
  | c :: rest, s =>
    let r := acquireLock key c.1 c.2.1 c.2.2 s
    let tail := acquireMany key rest r.2
    (r.1 :: tail.1, tail.2)

/-- Distinguished outcome type of LockUtils.executeWithTimeout: the timeout
rejection (a distinct Error in the source) versus an error of the operation
itself. -/
inductive LockError (ε : Type) where
  | timeout (key : String) (timeoutMs : Nat)
  | opError (e : ε)
deriving DecidableEq

/-- LockUtils.executeWithTimeout over an operation that settles opDuration ms
after its start with outcome opResult: the race between the operation and the
timer, returning the settle delay and the outcome. When the operation is not
done after timeoutMs the promise rejects with the distinguished timeout error. -/
def executeWithTimeout {ε α : Type} (opDuration : Nat) (opResult : Except ε α) (timeoutMs : Nat) (key : String) : Nat × Except (LockError ε) α :=
  if opDuration ≤ timeoutMs then
    (opDuration,
      match opResult with
      | Except.ok v => Except.ok v
      | Except.error e => Except.error (LockError.opError e))
  else (timeoutMs, Except.error (LockError.timeout key timeoutMs))

/-- The observable trace of one fresh acquireLock call: when and how the
returned promise settles, the registry after the finally handler has run, and
when and how the underlying operation itself completes. -/
structure AcquireRun (ε α : Type) where
  settleTime : Nat
  outcome : Except (LockError ε) α
  finalState : LockState
  opCompletion : Nat × Except ε α

/-- LockUtils.acquireLock on the fresh path (no live entry for the key after
the sweep), followed to the settlement of its promise: the operation is raced
against the timer, the finally handler deletes the registry entry when the
promise settles, and the operation itself is never cancelled - it completes
with its own outcome at its own time. -/
def acquireLockRun {ε α : Type} (key : String) (opId opDuration : Nat) (opResult : Except ε α) (timeoutMs : Nat) (now : Nat) (s : LockState) : AcquireRun ε α :=
  let s1 := cleanupExpiredLocks now s
  let s2 : LockState :=
    { locks := s1.locks ++ [(key, { opId := opId, timestamp := now, timeoutMs := timeoutMs })],
      started := s1.started ++ [opId] }
  let r := executeWithTimeout opDuration opResult timeoutMs key
  { settleTime := now + r.1,
    outcome := r.2,
    finalState := { s2 with locks := s2.locks.eraseP (fun p => p.1 == key) },
    opCompletion := (now + opDuration, opResult) }

theorem findDigitRun_spec {l : List Char} {r : List Char} (h : findDigitRun l = some r) :
    (∀ c ∈ r, isDigitChar c = true) ∧ 6 ≤ r.length ∧ r.length ≤ 8 := by
  induction l with
  | nil => simp [findDigitRun] at h
  | cons c cs ih =>
    rw [findDigitRun] at h
    by_cases h6 : 6 ≤ ((c :: cs).takeWhile isDigitChar).length
    · simp only [h6, if_pos] at h
      obtain rfl : ((c :: cs).takeWhile isDigitChar).take 8 = r := Option.some_injective _ h
      refine ⟨?_, ?_, ?_⟩
      · intro x hx
        exact List.mem_takeWhile_imp (List.mem_of_mem_take hx)
      · rw [List.length_take]
        omega
      · rw [List.length_take]
        omega
    · simp only [h6, if_neg, not_false_iff] at h
      exact ih h

theorem findDigitRun_of_digits {l : List Char} (hd : ∀ c ∈ l, isDigitChar c = true)
    (h6 : 6 ≤ l.length) (h8 : l.length ≤ 8) : findDigitRun l = some l := by
  cases l with
  | nil => simp at h6
  | cons c cs =>
    have htw : (c :: cs).takeWhile isDigitChar = c :: cs := List.takeWhile_eq_self_iff.mpr hd
    simp only [findDigitRun, htw]
    rw [if_pos h6, List.take_of_length_le h8]

theorem String_mk_eq_empty_iff (r : List Char) : String.mk r = "" ↔ r = [] := by
  constructor
  · intro h
    have := congrArg String.data h
    simpa using this
  · intro h
    subst h
    rfl

/-- C9: normalize is idempotent: for every raw code string c,
normalize (normalize c) = normalize c. -/
theorem normalizeEmailGroupId_idempotent (c : String) :
    normalizeEmailGroupId (normalizeEmailGroupId c) = normalizeEmailGroupId c := by
  by_cases hc : c = ""
  · subst hc
    rfl
  · have hinner : normalizeEmailGroupId c
        = match findDigitRun c.data with | some r => String.mk r | none => c := by
      rw [normalizeEmailGroupId, if_neg hc]
    cases h : findDigitRun c.data with
    | none =>
      have hval : normalizeEmailGroupId c = c := by rw [hinner, h]
      rw [hval]
      exact hval
    | some r =>
      have hval : normalizeEmailGroupId c = String.mk r := by rw [hinner, h]
      rw [hval]
      obtain ⟨hdig, h6, h8⟩ := findDigitRun_spec h
      have hne : String.mk r ≠ "" := by
        rw [ne_eq, String_mk_eq_empty_iff]
        intro h0
        rw [h0] at h6
        simp at h6
      rw [normalizeEmailGroupId, if_neg hne]
      have hdata : (String.mk r).data = r := rfl
      rw [hdata, findDigitRun_of_digits hdig h6 h8]

/-- C6: the spam check is evaluated before the relevance checks: every spam
message is classified not-relevant, whatever keywords or group code it
carries. -/
theorem isRelevantEmail_spam_precedence (email : IParsedEmail)
    (h : isSpamEmail email = true) : isRelevantEmail email = false := by
  rw [isRelevantEmail, if_pos h]

/-- A message that is spam yet also carries a relevance keyword and a known
group code. -/
def spamSampleEmail : IParsedEmail :=
  { dbData :=
      { id := "m1", fromText := "boss@corp.example", toText := "me@dest.example",
        subject := "order spam Shipment # 123456", date := 5,
        emailGroupId := "123456", status := "not_processed", text := "" },
    uiDataText := "tracking info" }

/-- Witness for C6: a concrete message matching a spam keyword, a relevance
keyword and a known group code is classified not-relevant. -/
theorem isRelevantEmail_spam_precedence_witness :
    isSpamEmail spamSampleEmail = true
    ∧ relevantKeywords.any (fun k => jsIncludes (jsToLower spamSampleEmail.dbData.subject) k) = true
    ∧ spamSampleEmail.dbData.emailGroupId ≠ "unknown"
    ∧ isRelevantEmail spamSampleEmail = false :=
  ⟨by decide, by decide, by decide,
    isRelevantEmail_spam_precedence spamSampleEmail (by decide)⟩

theorem filter_cons_pos {α : Type} (p : α → Bool) (a : α) (l : List α) (h : p a = true) :
    (a :: l).filter p = a :: l.filter p := by
  simp [List.filter_cons, h]

theorem filter_cons_neg {α : Type} (p : α → Bool) (a : α) (l : List α) (h : p a = false) :
    (a :: l).filter p = l.filter p := by
  simp [List.filter_cons, h]

theorem find?_cons_pos {α : Type} (p : α → Bool) (a : α) (l : List α) (h : p a = true) :
    (a :: l).find? p = some a := by
  simp [List.find?_cons, h]

theorem find?_cons_neg {α : Type} (p : α → Bool) (a : α) (l : List α) (h : p a = false) :
    (a :: l).find? p = l.find? p := by
  simp [List.find?_cons, h]

theorem findPairSelf {α : Type} (k : String) (v : α) :
    ∀ m : List (String × α), m.any (fun p => p.1 == k) = true →
      (m.map (fun p => if p.1 == k then (k, v) else p)).find? (fun p => p.1 == k) = some (k, v) := by
  intro m
  induction m with
  | nil => intro h; simp at h
  | cons p t ih =>
    intro h
    by_cases hp : (p.1 == k) = true
    · rw [List.map_cons, if_pos hp]
      exact find?_cons_pos (fun q => q.1 == k) (k, v) _ (by simp)
    · have hpf : (p.1 == k) = false := by simpa using hp
      have ht : t.any (fun p => p.1 == k) = true := by
        rcases List.any_eq_true.mp h with ⟨x, hx, hpx⟩
        rcases List.mem_cons.mp hx with rfl | hxt
        · exact absurd hpx hp
        · exact List.any_eq_true.mpr ⟨x, hxt, hpx⟩
      rw [List.map_cons, if_neg hp]
      rw [find?_cons_neg (fun q => q.1 == k) p _ hpf]
      exact ih ht

theorem mapGet_mapSet_self {α : Type} (m : List (String × α)) (k : String) (v : α) :
    mapGet (mapSet m k v) k = some v := by
  unfold mapGet mapSet
  by_cases h : m.any (fun p => p.1 == k) = true
  · rw [if_pos h, findPairSelf k v m h]
    rfl
  · rw [if_neg h, List.find?_append]
    have hnone : m.find? (fun p => p.1 == k) = none :=
      List.find?_eq_none.mpr (List.any_eq_false.mp (Bool.eq_false_iff.mpr h))
    rw [hnone, Option.none_or]
    rw [find?_cons_pos (fun p => p.1 == k) (k, v) [] (by simp)]
    rfl

theorem find?_map_setFun {α : Type} (k k2 : String) (v : α) (h : k2 ≠ k) :
    ∀ m : List (String × α),
      (m.map (fun p => if p.1 == k then (k, v) else p)).find? (fun p => p.1 == k2)
        = m.find? (fun p => p.1 == k2) := by
  intro m
  induction m with
  | nil => rfl
  | cons p t ih =>
    by_cases hp : (p.1 == k) = true
    · have hp1 : p.1 = k := by simpa using hp
      have hkk2 : ((k, v).1 == k2) = false := by
        simp only [beq_eq_false_iff_ne, ne_eq]
        exact fun hh => h hh.symm
      have hpk2 : (p.1 == k2) = false := by
        rw [hp1]
        simpa using hkk2
      rw [List.map_cons, if_pos hp]
      rw [find?_cons_neg (fun q => q.1 == k2) (k, v) _ hkk2]
      rw [find?_cons_neg (fun q => q.1 == k2) p t hpk2]
      exact ih
    · rw [List.map_cons, if_neg hp]
      by_cases hpk2 : (p.1 == k2) = true
      · rw [find?_cons_pos (fun q => q.1 == k2) p _ hpk2]
        rw [find?_cons_pos (fun q => q.1 == k2) p t hpk2]
      · have hf : (p.1 == k2) = false := by simpa using hpk2
        rw [find?_cons_neg (fun q => q.1 == k2) p _ hf]
        rw [find?_cons_neg (fun q => q.1 == k2) p t hf]
        exact ih

theorem mapGet_mapSet_ne {α : Type} (m : List (String × α)) (k k2 : String) (v : α)
    (h : k2 ≠ k) : mapGet (mapSet m k v) k2 = mapGet m k2 := by
  unfold mapGet mapSet
  by_cases hany : m.any (fun p => p.1 == k) = true
  · rw [if_pos hany, find?_map_setFun k k2 v h m]
  · rw [if_neg hany, List.find?_append]
    have hlast : ([(k, v)] : List (String × α)).find? (fun p => p.1 == k2) = none := by
      apply List.find?_eq_none.mpr
      intro x hx
      simp at hx
      subst hx
      simp only [beq_eq_false_iff_ne, ne_eq, Bool.not_eq_true]
      exact fun hh => h hh.symm
    rw [hlast, Option.or_none]

theorem getLast?_cons_or {α : Type} (x : α) (l : List α) :
    (x :: l).getLast? = l.getLast?.or (some x) := by
  cases l with
  | nil => simp
  | cons y t =>
    cases hgl : (y :: t).getLast? with
    | none => exact absurd (List.getLast?_eq_none_iff.mp hgl) (by simp)
    | some z => simp [List.getLast?_cons_cons, hgl]

theorem insertFetched_fold_get (d : String) (hd : d ≠ "") :
    ∀ (l : List FetchedEmail) (m : List (String × FetchedEmail)),
      mapGet (l.foldl insertFetched m) d
        = ((l.filter (fun x => x.id == d)).getLast?).or (mapGet m d) := by
  intro l
  induction l with
  | nil => intro m; simp
  | cons x t ih =>
    intro m
    rw [List.foldl_cons]
    by_cases hx : (x.id == d) = true
    · have hxid : x.id = d := by simpa using hx
      have hxne : (x.id != "") = true := by simp [bne, hxid, hd]
      have hins : insertFetched m x = mapSet m d x := by
        unfold insertFetched
        rw [if_pos hxne, hxid]
      rw [hins, ih (mapSet m d x), mapGet_mapSet_self]
      rw [filter_cons_pos (fun y => y.id == d) x t hx]
      rw [getLast?_cons_or, Option.or_assoc, Option.or_some]
    · have hxf : (x.id == d) = false := by simpa using hx
      have hstep : mapGet (insertFetched m x) d = mapGet m d := by
        unfold insertFetched
        by_cases hxe : (x.id != "") = true
        · rw [if_pos hxe]
          exact mapGet_mapSet_ne m x.id d x (fun hh => hx (by simp [hh]))
        · rw [if_neg hxe]
      rw [ih (insertFetched m x), hstep]
      rw [filter_cons_neg (fun y => y.id == d) x t hxf]

theorem mapSet_nodup_keys {α : Type} (m : List (String × α)) (k : String) (v : α)
    (h : (m.map (fun p => p.1)).Nodup) : ((mapSet m k v).map (fun p => p.1)).Nodup := by
  unfold mapSet
  by_cases hany : m.any (fun p => p.1 == k) = true
  · rw [if_pos hany]
    have heq : (m.map (fun p => if p.1 == k then (k, v) else p)).map (fun p => p.1)
        = m.map (fun p => p.1) := by
      rw [List.map_map]
      apply List.map_congr_left
      intro p _
      show (if p.1 == k then (k, v) else p).1 = p.1
      by_cases hp : (p.1 == k) = true
      · rw [if_pos hp]
        exact (beq_iff_eq.mp hp).symm
      · rw [if_neg hp]
    rw [heq]
    exact h
  · rw [if_neg hany]
    have hnotin : k ∉ m.map (fun p => p.1) := by
      intro hk
      rcases List.mem_map.mp hk with ⟨p, hp, hp1⟩
      have hfalse := List.any_eq_false.mp (Bool.eq_false_iff.mpr hany) p hp
      exact hfalse (by simp [hp1])
    rw [List.map_append, List.nodup_append]
    refine ⟨h, by simp, ?_⟩
    intro a ha hb
    simp at hb
    subst hb
    exact hnotin ha

theorem insertFetched_fold_nodup :
    ∀ (l : List FetchedEmail) (m : List (String × FetchedEmail)),
      (m.map (fun p => p.1)).Nodup → ((l.foldl insertFetched m).map (fun p => p.1)).Nodup := by
  intro l
  induction l with
  | nil => intro m h; exact h
  | cons x t ih =>
    intro m h
    rw [List.foldl_cons]
    apply ih
    unfold insertFetched
    by_cases hxe : (x.id != "") = true
    · rw [if_pos hxe]
      exact mapSet_nodup_keys m x.id x h
    · rw [if_neg hxe]
      exact h

theorem mapSet_inv {α : Type} (keyOf : α → String) (m : List (String × α)) (k : String) (v : α)
    (hm : ∀ p ∈ m, keyOf p.2 = p.1 ∧ p.1 ≠ "") (hv : keyOf v = k) (hk : k ≠ "") :
    ∀ p ∈ mapSet m k v, keyOf p.2 = p.1 ∧ p.1 ≠ "" := by
  unfold mapSet
  by_cases hany : m.any (fun p => p.1 == k) = true
  · rw [if_pos hany]
    intro p hp
    rcases List.mem_map.mp hp with ⟨q, hq, hqe⟩
    by_cases hqk : (q.1 == k) = true
    · rw [if_pos hqk] at hqe
      subst hqe
      exact ⟨hv, hk⟩
    · rw [if_neg hqk] at hqe
      subst hqe
      exact hm q hq
  · rw [if_neg hany]
    intro p hp
    rcases List.mem_append.mp hp with hpm | hps
    · exact hm p hpm
    · simp at hps
      subst hps
      exact ⟨hv, hk⟩

theorem insertFetched_fold_inv :
    ∀ (l : List FetchedEmail) (m : List (String × FetchedEmail)),
      (∀ p ∈ m, p.2.id = p.1 ∧ p.1 ≠ "") →
      ∀ p ∈ l.foldl insertFetched m, p.2.id = p.1 ∧ p.1 ≠ "" := by
  intro l
  induction l with
  | nil => intro m h; exact h
  | cons x t ih =>
    intro m h
    rw [List.foldl_cons]
    apply ih
    unfold insertFetched
    by_cases hxe : (x.id != "") = true
    · rw [if_pos hxe]
      exact mapSet_inv (fun e => e.id) m x.id x h rfl (by simpa [bne] using hxe)
    · rw [if_neg hxe]
      exact h

theorem find?_values (d : String) :
    ∀ m : List (String × FetchedEmail), (∀ p ∈ m, p.2.id = p.1) →
      (m.map (fun p => p.2)).find? (fun e => e.id == d) = mapGet m d := by
  intro m
  induction m with
  | nil => intro _; simp [mapGet]
  | cons p t ih =>
    intro hinv
    have hp : p.2.id = p.1 := hinv p (by simp)
    have hrest := ih (fun q hq => hinv q (List.mem_cons_of_mem p hq))
    by_cases hd1 : (p.1 == d) = true
    · simp [mapGet, hp, hd1]
    · simp [mapGet, hp, hd1] at hrest ⊢
      exact hrest

/-- C1 (amended): the merge produces exactly one entry per distinct (non-empty)
id, every kept entry has a non-empty id, and on an id collision the entry from
the initial set is kept (entries from the extended set survive only for ids
absent from the initial set; within one set the last occurrence of an id
wins). -/
theorem mergeFetchedEmails_spec (initialEmails extendedEmails : List FetchedEmail) :
    ((mergeFetchedEmails initialEmails extendedEmails).map (fun e => e.id)).Nodup
    ∧ (∀ e ∈ mergeFetchedEmails initialEmails extendedEmails, e.id ≠ "")
    ∧ (∀ d : String, d ≠ "" →
        (mergeFetchedEmails initialEmails extendedEmails).find? (fun e => e.id == d)
          = ((initialEmails.filter (fun e => e.id == d)).getLast?).or
              ((extendedEmails.filter (fun e => e.id == d)).getLast?)) := by
  unfold mergeFetchedEmails
  have hinv1 : ∀ p ∈ extendedEmails.foldl insertFetched [], p.2.id = p.1 ∧ p.1 ≠ "" :=
    insertFetched_fold_inv extendedEmails [] (by simp)
  have hinv2 : ∀ p ∈ initialEmails.foldl insertFetched (extendedEmails.foldl insertFetched []),
      p.2.id = p.1 ∧ p.1 ≠ "" :=
    insertFetched_fold_inv initialEmails _ hinv1
  have hnd : ((initialEmails.foldl insertFetched (extendedEmails.foldl insertFetched [])).map
      (fun p => p.1)).Nodup :=
    insertFetched_fold_nodup initialEmails _ (insertFetched_fold_nodup extendedEmails [] (by simp))
  refine ⟨?_, ?_, ?_⟩
  · have heq : ((initialEmails.foldl insertFetched (extendedEmails.foldl insertFetched [])).map
        (fun p => p.2)).map (fun e => e.id)
        = (initialEmails.foldl insertFetched (extendedEmails.foldl insertFetched [])).map
            (fun p => p.1) := by
      rw [List.map_map]
      apply List.map_congr_left
      intro p hp
      exact (hinv2 p hp).1
    rw [heq]
    exact hnd
  · intro e he
    rcases List.mem_map.mp he with ⟨p, hp, rfl⟩
    rw [(hinv2 p hp).1]
    exact (hinv2 p hp).2
  · intro d hd
    rw [find?_values d _ (fun p hp => (hinv2 p hp).1)]
    rw [insertFetched_fold_get d hd initialEmails _]
    rw [insertFetched_fold_get d hd extendedEmails []]
    simp [mapGet]

/-- An initial-fetch message with id A. -/
def feInitialA : FetchedEmail :=
  { id := "A", fromText := "a@x.example", toText := "b@x.example",
    subject := "initial copy", date := 1,
    text := some "from the date-ranged search", attachments := [] }

/-- An extended-fetch message with the same id A but different content. -/
def feExtendedA : FetchedEmail :=
  { id := "A", fromText := "a@x.example", toText := "b@x.example",
    subject := "extended copy", date := 2,
    text := some "from the group-code search", attachments := [] }

/-- Counterexample for C1 as stated: on an id collision the merge keeps the
entry from the initial set, not the one from the extended set. -/
theorem mergeFetchedEmails_counterexample :
    mergeFetchedEmails [feInitialA] [feExtendedA] = [feInitialA]
    ∧ feInitialA ≠ feExtendedA
    ∧ mergeFetchedEmails [feInitialA] [feExtendedA] ≠ [feExtendedA] := by
  refine ⟨by decide, by decide, by decide⟩

/-- Witness for the amended C1 at a concrete collision. -/
theorem mergeFetchedEmails_spec_witness :
    ("A" : String) ≠ ""
    ∧ (mergeFetchedEmails [feInitialA] [feExtendedA]).find? (fun e => e.id == "A")
        = (([feInitialA].filter (fun e => e.id == "A")).getLast?).or
            (([feExtendedA].filter (fun e => e.id == "A")).getLast?) :=
  ⟨by decide, (mergeFetchedEmails_spec [feInitialA] [feExtendedA]).2.2 "A" (by decide)⟩

theorem saveSingleEmailIfNew_groups (emailGroupId : String) (p : IParsedEmail) (db : Store) :
    (saveSingleEmailIfNew emailGroupId p db).2.groups = db.groups := by
  unfold saveSingleEmailIfNew
  by_cases h : getEmailByMessageId db p.dbData.id = true
  · rw [if_pos h]
  · rw [if_neg h]

theorem saveEmailsLoop_groups (emailGroupId : String) :
    ∀ (l : List IParsedEmail) (db : Store),
      (saveEmailsLoop emailGroupId l db).2.groups = db.groups := by
  intro l
  induction l with
  | nil => intro db; rfl
  | cons p t ih =>
    intro db
    show (saveEmailsLoop emailGroupId t (saveSingleEmailIfNew emailGroupId p db).2).2.groups
      = db.groups
    rw [ih, saveSingleEmailIfNew_groups]

theorem saveEmailsLoop_cons (emailGroupId : String) (p : IParsedEmail)
    (t : List IParsedEmail) (db : Store) :
    saveEmailsLoop emailGroupId (p :: t) db
      = ((if (saveSingleEmailIfNew emailGroupId p db).1 then 1 else 0)
          + (saveEmailsLoop emailGroupId t (saveSingleEmailIfNew emailGroupId p db).2).1,
         (saveEmailsLoop emailGroupId t (saveSingleEmailIfNew emailGroupId p db).2).2) := rfl

theorem saveEmailsLoop_length (emailGroupId : String) :
    ∀ (l : List IParsedEmail) (db : Store),
      (saveEmailsLoop emailGroupId l db).2.emails.length
        = db.emails.length + (saveEmailsLoop emailGroupId l db).1 := by
  intro l
  induction l with
  | nil => intro db; rfl
  | cons p t ih =>
    intro db
    rw [saveEmailsLoop_cons]
    by_cases h : getEmailByMessageId db p.dbData.id = true
    · have h1 : saveSingleEmailIfNew emailGroupId p db = (false, db) := by
        unfold saveSingleEmailIfNew
        rw [if_pos h]
      rw [h1]
      have hx := ih db
      simp
      omega
    · have h1 : saveSingleEmailIfNew emailGroupId p db
          = (true, { db with emails := db.emails ++ [(p.dbData.id, emailGroupId)] }) := by
        unfold saveSingleEmailIfNew
        rw [if_neg h]
      rw [h1]
      have hx := ih { db with emails := db.emails ++ [(p.dbData.id, emailGroupId)] }
      simp only [List.length_append, List.length_cons, List.length_nil] at hx ⊢
      simp
      omega

theorem getEmailByMessageId_append_false (db : Store) (row : String × String) (i : String)
    (h : getEmailByMessageId { db with emails := db.emails ++ [row] } i = false) :
    getEmailByMessageId db i = false := by
  unfold getEmailByMessageId at h ⊢
  rw [List.any_append] at h
  exact (Bool.or_eq_false_iff.mp h).1

theorem saveEmailsLoop_onlyNew (emailGroupId : String) :
    ∀ (l : List IParsedEmail) (db : Store) (i g : String),
      (i, g) ∈ (saveEmailsLoop emailGroupId l db).2.emails →
        (i, g) ∈ db.emails
        ∨ (g = emailGroupId ∧ i ∈ l.map (fun p => p.dbData.id)
            ∧ getEmailByMessageId db i = false) := by
  intro l
  induction l with
  | nil => intro db i g h; exact Or.inl h
  | cons p t ih =>
    intro db i g hmem
    unfold saveEmailsLoop at hmem
    by_cases h : getEmailByMessageId db p.dbData.id = true
    · have h1 : saveSingleEmailIfNew emailGroupId p db = (false, db) := by
        unfold saveSingleEmailIfNew
        rw [if_pos h]
      rw [h1] at hmem
      rcases ih db i g hmem with hold | ⟨hg, hi, habs⟩
      · exact Or.inl hold
      · exact Or.inr ⟨hg, by simp [hi], habs⟩
    · have hfalse : getEmailByMessageId db p.dbData.id = false := Bool.eq_false_iff.mpr h
      have h1 : saveSingleEmailIfNew emailGroupId p db
          = (true, { db with emails := db.emails ++ [(p.dbData.id, emailGroupId)] }) := by
        unfold saveSingleEmailIfNew
        rw [if_neg h]
      rw [h1] at hmem
      rcases ih _ i g hmem with hold | ⟨hg, hi, habs⟩
      · rcases List.mem_append.mp hold with hdb | hrow
        · exact Or.inl hdb
        · simp at hrow
          exact Or.inr ⟨hrow.2, by simp [hrow.1], by rw [hrow.1]; exact hfalse⟩
      · exact Or.inr ⟨hg, by simp [hi],
          getEmailByMessageId_append_false db (p.dbData.id, emailGroupId) i habs⟩

theorem saveEmailsLoop_allOld (emailGroupId : String) :
    ∀ (l : List IParsedEmail) (db : Store),
      (∀ p ∈ l, getEmailByMessageId db p.dbData.id = true) →
      saveEmailsLoop emailGroupId l db = (0, db) := by
  intro l
  induction l with
  | nil => intro db _; rfl
  | cons p t ih =>
    intro db hall
    have h1 : saveSingleEmailIfNew emailGroupId p db = (false, db) := by
      unfold saveSingleEmailIfNew
      rw [if_pos (hall p (by simp))]
    rw [saveEmailsLoop_cons, h1, ih db (fun q hq => hall q (List.mem_cons_of_mem p hq))]
    simp

theorem updateGroupTimestamp_emails (emailGroupId : String) (now : Nat) (db : Store) :
    (updateGroupTimestamp emailGroupId now db).emails = db.emails := by
  cases hm : mapGet db.groups emailGroupId <;> simp [updateGroupTimestamp, hm]

theorem updateGroupTimestamp_groups_congr (emailGroupId : String) (now : Nat)
    {d1 d2 : Store} (h : d1.groups = d2.groups) :
    (updateGroupTimestamp emailGroupId now d1).groups
      = (updateGroupTimestamp emailGroupId now d2).groups := by
  unfold updateGroupTimestamp
  rw [h]
  cases hm : mapGet d2.groups emailGroupId <;> simp [hm, h]

theorem saveOnlyNewEmails_allOld (emailGroupId : String) (l : List IParsedEmail)
    (now : Nat) (db : Store)
    (hall : ∀ p ∈ l, getEmailByMessageId db p.dbData.id = true) :
    saveOnlyNewEmails emailGroupId l now db = (0, db) := by
  unfold saveOnlyNewEmails
  rw [saveEmailsLoop_allOld emailGroupId l db hall]
  simp

theorem saveOnlyNewEmails_eq (emailGroupId : String) (l : List IParsedEmail) (now : Nat) (db : Store) :
    saveOnlyNewEmails emailGroupId l now db
      = (if 0 < (saveEmailsLoop emailGroupId l db).1
         then ((saveEmailsLoop emailGroupId l db).1,
               updateGroupTimestamp emailGroupId now (saveEmailsLoop emailGroupId l db).2)
         else saveEmailsLoop emailGroupId l db) := rfl

theorem processSingleEmailGroup_eq (userId : Option Nat) (now : Nat) (emailGroup : IEmailGroup)
    (parsedEmails : List IParsedEmail) (db : Store) :
    processSingleEmailGroup userId now emailGroup parsedEmails db
      = (((saveEmailGroupWithSummary emailGroup.emailGroupId userId now db).1,
          (saveOnlyNewEmails emailGroup.emailGroupId
            (parsedEmails.filter (fun p => p.dbData.emailGroupId == emailGroup.emailGroupId)) now
            (saveEmailGroupWithSummary emailGroup.emailGroupId userId now db).2).1),
         (saveOnlyNewEmails emailGroup.emailGroupId
           (parsedEmails.filter (fun p => p.dbData.emailGroupId == emailGroup.emailGroupId)) now
           (saveEmailGroupWithSummary emailGroup.emailGroupId userId now db).2).2) := rfl

theorem processAllEmailGroups_cons (userId : Option Nat) (now : Nat) (g : IEmailGroup)
    (rest : List IEmailGroup) (parsedEmails : List IParsedEmail) (db : Store) :
    processAllEmailGroups userId now (g :: rest) parsedEmails db
      = (if g.emailGroupId == "" then processAllEmailGroups userId now rest parsedEmails db
         else
           ({ created := (if (processSingleEmailGroup userId now g parsedEmails db).1.1 then 1 else 0)
                + (processAllEmailGroups userId now rest parsedEmails
                    (processSingleEmailGroup userId now g parsedEmails db).2).1.created,
              updated := (if (processSingleEmailGroup userId now g parsedEmails db).1.1 then 0 else 1)
                + (processAllEmailGroups userId now rest parsedEmails
                    (processSingleEmailGroup userId now g parsedEmails db).2).1.updated,
              newEmails := (processSingleEmailGroup userId now g parsedEmails db).1.2
                + (processAllEmailGroups userId now rest parsedEmails
                    (processSingleEmailGroup userId now g parsedEmails db).2).1.newEmails,
              createdGroups := (if (processSingleEmailGroup userId now g parsedEmails db).1.1
                  then [g.emailGroupId] else [])
                ++ (processAllEmailGroups userId now rest parsedEmails
                    (processSingleEmailGroup userId now g parsedEmails db).2).1.createdGroups,
              updatedGroups := (if (processSingleEmailGroup userId now g parsedEmails db).1.1
                  then [] else [g.emailGroupId])
                ++ (processAllEmailGroups userId now rest parsedEmails
                    (processSingleEmailGroup userId now g parsedEmails db).2).1.updatedGroups },
            (processAllEmailGroups userId now rest parsedEmails
              (processSingleEmailGroup userId now g parsedEmails db).2).2)) := rfl

theorem processAllEmailGroups_secondRunAux (userId : Option Nat) (now : Nat) :
    ∀ (groups : List IEmailGroup) (parsedEmails : List IParsedEmail) (db : Store),
      (∀ p ∈ parsedEmails, getEmailByMessageId db p.dbData.id = true) →
      (∀ g ∈ groups, g.emailGroupId ≠ "" → (mapGet db.groups g.emailGroupId).isSome = true) →
      processAllEmailGroups userId now groups parsedEmails db
        = ({ created := 0,
             updated := (groups.filter (fun g => g.emailGroupId != "")).length,
             newEmails := 0, createdGroups := [],
             updatedGroups := (groups.filter (fun g => g.emailGroupId != "")).map
               (fun g => g.emailGroupId) }, db) := by
  intro groups
  induction groups with
  | nil => intro parsedEmails db _ _; rfl
  | cons g rest ih =>
    intro parsedEmails db hp hg
    rw [processAllEmailGroups_cons]
    by_cases hge : (g.emailGroupId == "") = true
    · rw [if_pos hge]
      rw [ih parsedEmails db hp (fun q hq hne => hg q (List.mem_cons_of_mem g hq) hne)]
      have hbne : (fun x : IEmailGroup => x.emailGroupId != "") g = false := by
        simp [bne, hge]
      rw [filter_cons_neg (fun x : IEmailGroup => x.emailGroupId != "") g rest hbne]
    · rw [if_neg hge]
      have hne : g.emailGroupId ≠ "" := by simpa using hge
      have hsome := hg g (by simp) hne
      have hsave : saveEmailGroupWithSummary g.emailGroupId userId now db = (false, db) := by
        unfold saveEmailGroupWithSummary
        cases hm : mapGet db.groups g.emailGroupId with
        | none => rw [hm] at hsome; simp at hsome
        | some r => rfl
      have hnew : saveOnlyNewEmails g.emailGroupId
          (parsedEmails.filter (fun p => p.dbData.emailGroupId == g.emailGroupId)) now db
            = (0, db) :=
        saveOnlyNewEmails_allOld _ _ _ _ (fun q hq => hp q (List.mem_filter.mp hq).1)
      have hsingle : processSingleEmailGroup userId now g parsedEmails db = ((false, 0), db) := by
        rw [processSingleEmailGroup_eq, hsave]
        simp only [Prod.snd]
        rw [hnew]
      rw [hsingle]
      rw [ih parsedEmails db hp (fun q hq hne2 => hg q (List.mem_cons_of_mem g hq) hne2)]
      have hbne : (fun x : IEmailGroup => x.emailGroupId != "") g = true := by
        simp [bne, hge]
      rw [filter_cons_pos (fun x : IEmailGroup => x.emailGroupId != "") g rest hbne]
      simp
      omega

/-- C2: saveOnlyNewEmails persists only messages whose id is absent from
storage, returns the count of messages it saved, and bumps the group
timestamp exactly when that count is at least one; consequently a second run
of the sync over already-persisted messages and already-created groups saves
nothing and leaves the store (group set and every updatedAt) unchanged. -/
theorem saveOnlyNewEmails_idempotent_sync :
    (∀ (emailGroupId : String) (parsedEmails : List IParsedEmail) (now : Nat) (db : Store),
      (∀ i g, (i, g) ∈ (saveOnlyNewEmails emailGroupId parsedEmails now db).2.emails →
          (i, g) ∈ db.emails
          ∨ (g = emailGroupId ∧ i ∈ parsedEmails.map (fun p => p.dbData.id)
              ∧ getEmailByMessageId db i = false))
      ∧ (saveOnlyNewEmails emailGroupId parsedEmails now db).2.emails.length
          = db.emails.length + (saveOnlyNewEmails emailGroupId parsedEmails now db).1
      ∧ (saveOnlyNewEmails emailGroupId parsedEmails now db).2.groups
          = (if 0 < (saveOnlyNewEmails emailGroupId parsedEmails now db).1
             then (updateGroupTimestamp emailGroupId now db).groups
             else db.groups)
      ∧ ((∀ p ∈ parsedEmails, getEmailByMessageId db p.dbData.id = true) →
          saveOnlyNewEmails emailGroupId parsedEmails now db = (0, db)))
    ∧ (∀ (userId : Option Nat) (now : Nat) (groups : List IEmailGroup)
        (parsedEmails : List IParsedEmail) (db : Store),
        (∀ p ∈ parsedEmails, getEmailByMessageId db p.dbData.id = true) →
        (∀ g ∈ groups, g.emailGroupId ≠ "" → (mapGet db.groups g.emailGroupId).isSome = true) →
        processAllEmailGroups userId now groups parsedEmails db
          = ({ created := 0,
               updated := (groups.filter (fun g => g.emailGroupId != "")).length,
               newEmails := 0, createdGroups := [],
               updatedGroups := (groups.filter (fun g => g.emailGroupId != "")).map
                 (fun g => g.emailGroupId) }, db)) := by
  constructor
  · intro emailGroupId parsedEmails now db
    refine ⟨?_, ?_, ?_, ?_⟩
    · intro i g hmem
      rw [saveOnlyNewEmails_eq] at hmem
      by_cases h : 0 < (saveEmailsLoop emailGroupId parsedEmails db).1
      · rw [if_pos h] at hmem
        simp only [updateGroupTimestamp_emails] at hmem
        exact saveEmailsLoop_onlyNew emailGroupId parsedEmails db i g hmem
      · rw [if_neg h] at hmem
        exact saveEmailsLoop_onlyNew emailGroupId parsedEmails db i g hmem
    · rw [saveOnlyNewEmails_eq]
      by_cases h : 0 < (saveEmailsLoop emailGroupId parsedEmails db).1
      · rw [if_pos h]
        simp only [updateGroupTimestamp_emails]
        exact saveEmailsLoop_length emailGroupId parsedEmails db
      · rw [if_neg h]
        exact saveEmailsLoop_length emailGroupId parsedEmails db
    · rw [saveOnlyNewEmails_eq]
      by_cases h : 0 < (saveEmailsLoop emailGroupId parsedEmails db).1
      · rw [if_pos h]
        simp only []
        rw [if_pos h]
        exact updateGroupTimestamp_groups_congr emailGroupId now
          (saveEmailsLoop_groups emailGroupId parsedEmails db)
      · rw [if_neg h]
        rw [if_neg h]
        exact saveEmailsLoop_groups emailGroupId parsedEmails db
    · intro hall
      exact saveOnlyNewEmails_allOld emailGroupId parsedEmails now db hall
  · intro userId now groups parsedEmails db hp hg
    exact processAllEmailGroups_secondRunAux userId now groups parsedEmails db hp hg

/-- A parsed email whose id m1 is already persisted in sampleStore. -/
def peM1 : IParsedEmail :=
  { dbData :=
      { id := "m1", fromText := "sender@corp.example", toText := "inbox@corp.example",
        subject := "Shipment # 123456", date := 3, emailGroupId := "123456",
        status := "not_processed", text := "" },
    uiDataText := "delivery update" }

/-- A store that already holds the message m1 and the group 123456. -/
def sampleStore : Store :=
  { emails := [("m1", "123456")],
    groups := [("123456", { userId := some 1, updatedAt := 10 })] }

/-- The grouped result matching the persisted group. -/
def sampleGroup : IEmailGroup := { emailGroupId := "123456", createdAt := 3, updatedAt := 3 }

/-- Witness for C2: a second sync over an already-persisted message and an
already-created group saves nothing and leaves the store unchanged. -/
theorem saveOnlyNewEmails_idempotent_sync_witness :
    (∀ p ∈ [peM1], getEmailByMessageId sampleStore p.dbData.id = true)
    ∧ (∀ g ∈ [sampleGroup], g.emailGroupId ≠ ""
        → (mapGet sampleStore.groups g.emailGroupId).isSome = true)
    ∧ processAllEmailGroups (some 1) 99 [sampleGroup] [peM1] sampleStore
        = ({ created := 0,
             updated := (([sampleGroup]).filter (fun g => g.emailGroupId != "")).length,
             newEmails := 0, createdGroups := [],
             updatedGroups := (([sampleGroup]).filter (fun g => g.emailGroupId != "")).map
               (fun g => g.emailGroupId) }, sampleStore) :=
  ⟨by decide, by decide,
    saveOnlyNewEmails_idempotent_sync.2 (some 1) 99 [sampleGroup] [peM1] sampleStore
      (by decide) (by decide)⟩

theorem cleanupExpiredLocks_started (now : Nat) (s : LockState) :
    (cleanupExpiredLocks now s).started = s.started := rfl

theorem acquireLock_found (key : String) (opId timeoutMs now : Nat) (s : LockState)
    (e : LockEntry) (h : (cleanupExpiredLocks now s).locks.lookup key = some e) :
    acquireLock key opId timeoutMs now s = (e.opId, cleanupExpiredLocks now s) := by
  unfold acquireLock
  simp only [h]

theorem acquireLock_fresh (key : String) (opId timeoutMs now : Nat) (s : LockState)
    (h : (cleanupExpiredLocks now s).locks.lookup key = none) :
    acquireLock key opId timeoutMs now s
      = (opId,
         { locks := (cleanupExpiredLocks now s).locks
             ++ [(key, { opId := opId, timestamp := now, timeoutMs := timeoutMs })],
           started := s.started ++ [opId] }) := by
  unfold acquireLock
  simp only [h]
  rfl

theorem acquireMany_cons (key : String) (c : Nat × Nat × Nat) (rest : List (Nat × Nat × Nat))
    (s : LockState) :
    acquireMany key (c :: rest) s
      = ((acquireLock key c.1 c.2.1 c.2.2 s).1
            :: (acquireMany key rest (acquireLock key c.1 c.2.1 c.2.2 s).2).1,
         (acquireMany key rest (acquireLock key c.1 c.2.1 c.2.2 s).2).2) := rfl

theorem lookup_filter_keep {β : Type} (key : String) (e : β) (pr : String × β → Bool) :
    ∀ l : List (String × β), l.lookup key = some e → pr (key, e) = true →
      (l.filter pr).lookup key = some e := by
  intro l
  induction l with
  | nil => intro h _; simp at h
  | cons p t ih =>
    intro hl hkeep
    rw [List.lookup_cons] at hl
    by_cases hk : (key == p.1) = true
    · simp only [hk] at hl
      have hp2 : p.2 = e := Option.some_injective _ hl
      have hp1 : p.1 = key := (beq_iff_eq.mp hk).symm
      have hpe : p = (key, e) := by
        cases p
        simp at hp1 hp2
        simp [hp1, hp2]
      subst hpe
      rw [filter_cons_pos pr (key, e) t hkeep]
      simp [List.lookup_cons]
    · have hkf : (key == p.1) = false := Bool.eq_false_iff.mpr hk
      simp only [hkf] at hl
      by_cases hpr : pr p = true
      · rw [filter_cons_pos pr p t hpr, List.lookup_cons]
        simp only [hkf]
        exact ih hl hkeep
      · rw [filter_cons_neg pr p t (Bool.eq_false_iff.mpr hpr)]
        exact ih hl hkeep

theorem lookup_none_forall {β : Type} (key : String) :
    ∀ l : List (String × β), l.lookup key = none → ∀ p ∈ l, (p.1 == key) = false := by
  intro l
  induction l with
  | nil => intro _ p hp; simp at hp
  | cons q t ih =>
    intro h p hp
    rw [List.lookup_cons] at h
    by_cases hk : (key == q.1) = true
    · simp only [hk] at h
      exact absurd h (by simp)
    · have hkf : (key == q.1) = false := Bool.eq_false_iff.mpr hk
      simp only [hkf] at h
      rcases List.mem_cons.mp hp with rfl | hpt
      · have hne : key ≠ p.1 := by simpa using hk
        simp [beq_iff_eq]
        exact fun hh => hne hh.symm
      · exact ih h p hpt

theorem lookup_append_single {β : Type} (l : List (String × β)) (key : String) (v : β)
    (h : l.lookup key = none) : (l ++ [(key, v)]).lookup key = some v := by
  rw [List.lookup_append, h, Option.none_or]
  simp [List.lookup_cons]

theorem acquireMany_held (key : String) (e : LockEntry) :
    ∀ (calls : List (Nat × Nat × Nat)) (st : LockState),
      st.locks.lookup key = some e →
      (∀ c ∈ calls, c.2.2 - e.timestamp ≤ lockDefaultTimeout + 10000) →
      (acquireMany key calls st).1 = calls.map (fun _ => e.opId)
      ∧ (acquireMany key calls st).2.started = st.started
      ∧ (acquireMany key calls st).2.locks.lookup key = some e := by
  intro calls
  induction calls with
  | nil => intro st h _; exact ⟨rfl, rfl, h⟩
  | cons c cs ih =>
    intro st hl hall
    have hsurv : (cleanupExpiredLocks c.2.2 st).locks.lookup key = some e := by
      apply lookup_filter_keep key e _ st.locks hl
      simp only [decide_eq_true_eq]
      exact hall c (by simp)
    have hacq := acquireLock_found key c.1 c.2.1 c.2.2 st e hsurv
    rw [acquireMany_cons, hacq]
    have hih := ih (cleanupExpiredLocks c.2.2 st)
      hsurv (fun q hq => hall q (List.mem_cons_of_mem c hq))
    refine ⟨?_, ?_, ?_⟩
    · rw [List.map_cons]
      exact congrArg (fun xs => e.opId :: xs) hih.1
    · rw [hih.2.1]
      rfl
    · exact hih.2.2

/-- C3: request coalescing: a call that finds a live (non-expired) lock entry
for its key returns the in-flight promise recorded there and starts no new
execution; and a burst of N calls for one key, the first finding no live
entry and the rest arriving within the expiry window, performs exactly one
execution whose promise every caller receives. The outcome a caller observes
is a function of the promise it receives, so all coalesced callers observe
the single execution and its single outcome. -/
theorem acquireLock_coalesces :
    (∀ (key : String) (opId timeoutMs now : Nat) (s : LockState) (e : LockEntry),
      (cleanupExpiredLocks now s).locks.lookup key = some e →
      acquireLock key opId timeoutMs now s = (e.opId, cleanupExpiredLocks now s)
      ∧ (acquireLock key opId timeoutMs now s).2.started = s.started)
    ∧ (∀ (key : String) (opId timeoutMs now : Nat) (rest : List (Nat × Nat × Nat)) (s : LockState),
        (cleanupExpiredLocks now s).locks.lookup key = none →
        (∀ c ∈ rest, c.2.2 - now ≤ lockDefaultTimeout + 10000) →
        (acquireMany key ((opId, timeoutMs, now) :: rest) s).1
            = ((opId, timeoutMs, now) :: rest).map (fun _ => opId)
        ∧ (acquireMany key ((opId, timeoutMs, now) :: rest) s).2.started
            = s.started ++ [opId]) := by
  constructor
  · intro key opId timeoutMs now s e h
    refine ⟨acquireLock_found key opId timeoutMs now s e h, ?_⟩
    rw [acquireLock_found key opId timeoutMs now s e h]
    rfl
  · intro key opId timeoutMs now rest s hnone hall
    have hacq := acquireLock_fresh key opId timeoutMs now s hnone
    have hlook : ((cleanupExpiredLocks now s).locks
        ++ [(key, ({ opId := opId, timestamp := now, timeoutMs := timeoutMs } : LockEntry))]).lookup key
        = some ({ opId := opId, timestamp := now, timeoutMs := timeoutMs } : LockEntry) :=
      lookup_append_single _ key _ hnone
    rw [acquireMany_cons, hacq]
    have hheld := acquireMany_held key { opId := opId, timestamp := now, timeoutMs := timeoutMs }
      rest
      { locks := (cleanupExpiredLocks now s).locks
          ++ [(key, { opId := opId, timestamp := now, timeoutMs := timeoutMs })],
        started := s.started ++ [opId] }
      hlook hall
    refine ⟨?_, ?_⟩
    · rw [List.map_cons]
      exact congrArg (fun xs => opId :: xs) hheld.1
    · exact hheld.2.1

/-- An all-empty lock registry. -/
def lockEmptyState : LockState := { locks := [], started := [] }

/-- Witness for C3: three concurrent calls for key K while the first is in
flight perform one execution and all receive its promise. -/
theorem acquireLock_coalesces_witness :
    (cleanupExpiredLocks 1000 lockEmptyState).locks.lookup "K" = none
    ∧ (∀ c ∈ [((6 : Nat), (5000 : Nat), (1500 : Nat)), (8, 5000, 2000)],
        c.2.2 - 1000 ≤ lockDefaultTimeout + 10000)
    ∧ (acquireMany "K" (((5 : Nat), (5000 : Nat), (1000 : Nat)) :: [(6, 5000, 1500), (8, 5000, 2000)]) lockEmptyState).1
        = (((5 : Nat), (5000 : Nat), (1000 : Nat)) :: [(6, 5000, 1500), (8, 5000, 2000)]).map (fun _ => 5)
    ∧ (acquireMany "K" (((5 : Nat), (5000 : Nat), (1000 : Nat)) :: [(6, 5000, 1500), (8, 5000, 2000)]) lockEmptyState).2.started
        = lockEmptyState.started ++ [5] :=
  ⟨by decide, by decide,
    (acquireLock_coalesces.2 "K" 5 5000 1000 [(6, 5000, 1500), (8, 5000, 2000)] lockEmptyState
      (by decide) (by decide)).1,
    (acquireLock_coalesces.2 "K" 5 5000 1000 [(6, 5000, 1500), (8, 5000, 2000)] lockEmptyState
      (by decide) (by decide)).2⟩

theorem lookup_eq_none_keys {β : Type} (key : String) :
    ∀ l : List (String × β), key ∉ l.map (fun p => p.1) → l.lookup key = none := by
  intro l
  induction l with
  | nil => intro _; rfl
  | cons q t ih =>
    intro h
    rw [List.lookup_cons]
    have hne : key ≠ q.1 := by
      intro heq
      exact h (by simp [heq])
    have hkf : (key == q.1) = false := by simpa using hne
    simp only [hkf]
    exact ih (fun hm => h (by simp at hm ⊢; exact Or.inr hm))

theorem lookup_filter_drop {β : Type} (key : String) (e : β) (pr : String × β → Bool) :
    ∀ l : List (String × β), (l.map (fun p => p.1)).Nodup → l.lookup key = some e →
      pr (key, e) = false → (l.filter pr).lookup key = none := by
  intro l
  induction l with
  | nil => intro _ h _; simp at h
  | cons p t ih =>
    intro hnd hl hdrop
    have hnd1 : p.1 ∉ t.map (fun q => q.1) := by
      rw [List.map_cons, List.nodup_cons] at hnd
      exact hnd.1
    have hndt : (t.map (fun q => q.1)).Nodup := by
      rw [List.map_cons, List.nodup_cons] at hnd
      exact hnd.2
    rw [List.lookup_cons] at hl
    by_cases hk : (key == p.1) = true
    · simp only [hk] at hl
      have hp2 : p.2 = e := Option.some_injective _ hl
      have hp1 : p.1 = key := (beq_iff_eq.mp hk).symm
      have hpe : p = (key, e) := by
        cases p
        simp at hp1 hp2
        simp [hp1, hp2]
      subst hpe
      rw [filter_cons_neg pr (key, e) t hdrop]
      apply lookup_eq_none_keys
      intro hmem
      apply hnd1
      rcases List.mem_map.mp hmem with ⟨q, hq, hq1⟩
      exact List.mem_map.mpr ⟨q, (List.mem_filter.mp hq).1, hq1⟩
    · have hkf : (key == p.1) = false := Bool.eq_false_iff.mpr hk
      simp only [hkf] at hl
      by_cases hpr : pr p = true
      · rw [filter_cons_pos pr p t hpr, List.lookup_cons]
        simp only [hkf]
        exact ih hndt hl hdrop
      · rw [filter_cons_neg pr p t (Bool.eq_false_iff.mpr hpr)]
        exact ih hndt hl hdrop

/-- C10: the lazy sweep judges every entry against the fixed window
DEFAULT_TIMEOUT (30000 ms) plus the 10000 ms grace, ignoring the timeoutMs the
entry was acquired with: an entry older than 40000 ms is removed by any
acquire or hasLock call even while its own larger timeout has not yet elapsed,
after which a new acquire for the same key starts a second execution. -/
theorem cleanupExpiredLocks_fixed_window
    (key : String) (e : LockEntry) (opId timeoutMs now : Nat) (s : LockState)
    (hnd : (s.locks.map (fun p => p.1)).Nodup)
    (hl : s.locks.lookup key = some e)
    (hage : lockDefaultTimeout + 10000 < now - e.timestamp)
    (hown : now - e.timestamp ≤ e.timeoutMs) :
    (cleanupExpiredLocks now s).locks.lookup key = none
    ∧ hasLock key now s = (false, cleanupExpiredLocks now s)
    ∧ (acquireLock key opId timeoutMs now s).1 = opId
    ∧ (acquireLock key opId timeoutMs now s).2.started = s.started ++ [opId] := by
  have hnone : (cleanupExpiredLocks now s).locks.lookup key = none := by
    unfold cleanupExpiredLocks
    apply lookup_filter_drop key e _ s.locks hnd hl
    simp only [decide_eq_false_iff_not, not_le]
    omega
  refine ⟨hnone, ?_, ?_, ?_⟩
  · unfold hasLock
    simp only [hnone]
    rfl
  · rw [acquireLock_fresh key opId timeoutMs now s hnone]
  · rw [acquireLock_fresh key opId timeoutMs now s hnone]

/-- A registry holding a single stale entry for K: acquired at time 0 with a
personal timeout of 100000 ms. -/
def lockStaleState : LockState :=
  { locks := [("K", { opId := 3, timestamp := 0, timeoutMs := 100000 })], started := [3] }

/-- Witness for C10 at time 50000: the stale entry (age 50000 > 40000, own
timeout 100000 not yet elapsed) is swept, hasLock says false, and a new
acquire starts a second execution. -/
theorem cleanupExpiredLocks_fixed_window_witness :
    (lockStaleState.locks.map (fun p => p.1)).Nodup
    ∧ lockStaleState.locks.lookup "K"
        = some { opId := 3, timestamp := 0, timeoutMs := 100000 }
    ∧ lockDefaultTimeout + 10000 < 50000 - (0 : Nat)
    ∧ 50000 - (0 : Nat) ≤ 100000
    ∧ hasLock "K" 50000 lockStaleState = (false, cleanupExpiredLocks 50000 lockStaleState)
    ∧ (acquireLock "K" 9 30000 50000 lockStaleState).2.started
        = lockStaleState.started ++ [9] :=
  ⟨by decide, by decide, by decide, by decide,
    (cleanupExpiredLocks_fixed_window "K" { opId := 3, timestamp := 0, timeoutMs := 100000 }
      9 30000 50000 lockStaleState (by decide) (by decide) (by decide) (by decide)).2.1,
    (cleanupExpiredLocks_fixed_window "K" { opId := 3, timestamp := 0, timeoutMs := 100000 }
      9 30000 50000 lockStaleState (by decide) (by decide) (by decide) (by decide)).2.2.2⟩

/-- C8: whenever the promise returned by acquire settles - operation success,
operation error, or timeout - the registry entry for the key is removed (the
finally handler); a timeout yields the distinguished timeout error and does
not cancel the operation, which still completes with its own outcome at its
own time. -/
theorem acquireLockRun_release_no_cancel {ε α : Type} (key : String)
    (opId opDuration : Nat) (opResult : Except ε α) (timeoutMs now : Nat) (s : LockState)
    (hnone : (cleanupExpiredLocks now s).locks.lookup key = none) :
    (acquireLockRun key opId opDuration opResult timeoutMs now s).finalState.locks.lookup key
        = none
    ∧ (acquireLockRun key opId opDuration opResult timeoutMs now s).opCompletion
        = (now + opDuration, opResult)
    ∧ (timeoutMs < opDuration →
        (acquireLockRun key opId opDuration opResult timeoutMs now s).outcome
            = Except.error (LockError.timeout key timeoutMs)
        ∧ (acquireLockRun key opId opDuration opResult timeoutMs now s).settleTime
            = now + timeoutMs)
    ∧ (opDuration ≤ timeoutMs →
        (acquireLockRun key opId opDuration opResult timeoutMs now s).settleTime
            = now + opDuration
        ∧ (acquireLockRun key opId opDuration opResult timeoutMs now s).outcome
            = (match opResult with
               | Except.ok v => Except.ok v
               | Except.error err => Except.error (LockError.opError err))) := by
  have hout : (acquireLockRun key opId opDuration opResult timeoutMs now s).outcome
      = (executeWithTimeout opDuration opResult timeoutMs key).2 := rfl
  have hst : (acquireLockRun key opId opDuration opResult timeoutMs now s).settleTime
      = now + (executeWithTimeout opDuration opResult timeoutMs key).1 := rfl
  have hfs : (acquireLockRun key opId opDuration opResult timeoutMs now s).finalState.locks
      = ((cleanupExpiredLocks now s).locks
          ++ [(key, ({ opId := opId, timestamp := now, timeoutMs := timeoutMs } : LockEntry))]).eraseP
          (fun p => p.1 == key) := rfl
  refine ⟨?_, rfl, ?_, ?_⟩
  · rw [hfs, List.eraseP_append]
    have hanyf : (cleanupExpiredLocks now s).locks.any (fun p => p.1 == key) = false :=
      List.any_eq_false.mpr (fun p hp => by
        rw [lookup_none_forall key (cleanupExpiredLocks now s).locks hnone p hp]
        simp)
    rw [hanyf]
    simp only [Bool.false_eq_true, if_false]
    have hone : (([(key, ({ opId := opId, timestamp := now, timeoutMs := timeoutMs } : LockEntry))]).eraseP
        (fun p => p.1 == key)) = [] := by
      simp [List.eraseP_cons]
    rw [hone, List.append_nil]
    exact hnone
  · intro hlt
    have hexe : executeWithTimeout opDuration opResult timeoutMs key
        = (timeoutMs, Except.error (LockError.timeout key timeoutMs)) := by
      unfold executeWithTimeout
      rw [if_neg (by omega)]
    rw [hout, hst, hexe]
    exact ⟨rfl, rfl⟩
  · intro hle
    have hexe : executeWithTimeout opDuration opResult timeoutMs key
        = (opDuration,
           match opResult with
           | Except.ok v => Except.ok v
           | Except.error err => Except.error (LockError.opError err)) := by
      unfold executeWithTimeout
      rw [if_pos hle]
    rw [hout, hst, hexe]
    exact ⟨rfl, rfl⟩

/-- Witness for C8: an operation that takes 10000 ms under a 5000 ms timeout:
the promise settles at 5000 with the distinguished timeout error, the lock is
gone, and the operation still completes at 10000 with its own result. -/
theorem acquireLockRun_release_no_cancel_witness :
    (cleanupExpiredLocks 0 lockEmptyState).locks.lookup "K" = none
    ∧ (5000 : Nat) < 10000
    ∧ (acquireLockRun "K" 1 10000 (Except.ok 42 : Except String Nat) 5000 0
        lockEmptyState).outcome = Except.error (LockError.timeout "K" 5000)
    ∧ (acquireLockRun "K" 1 10000 (Except.ok 42 : Except String Nat) 5000 0
        lockEmptyState).finalState.locks.lookup "K" = none
    ∧ (acquireLockRun "K" 1 10000 (Except.ok 42 : Except String Nat) 5000 0
        lockEmptyState).opCompletion = (10000, Except.ok 42) :=
  ⟨by decide, by decide,
    ((acquireLockRun_release_no_cancel "K" 1 10000 (Except.ok 42 : Except String Nat) 5000 0
      lockEmptyState (by decide)).2.2.1 (by decide)).1,
    (acquireLockRun_release_no_cancel "K" 1 10000 (Except.ok 42 : Except String Nat) 5000 0
      lockEmptyState (by decide)).1,
    (acquireLockRun_release_no_cancel "K" 1 10000 (Except.ok 42 : Except String Nat) 5000 0
      lockEmptyState (by decide)).2.1⟩

/-- C4 (amended): every group returned by the targeted lookup has a code whose
uppercased form contains the uppercased requested code as a substring - the
filter is a case-insensitive containment test, not equality with the canonical
form of the requested code. -/
theorem targetedLookup_code_contains (fetchedEmails : List FetchedEmail) (emailGroupId : String) :
    ∀ g ∈ getGroupedEmailGroupsByEmailGroupId fetchedEmails emailGroupId,
      jsIncludes (jsToUpper g.emailGroupId) (jsToUpper emailGroupId) = true := by
  intro g hg
  unfold getGroupedEmailGroupsByEmailGroupId at hg
  exact (List.mem_filter.mp hg).2

/-- A fetched message whose subject carries the seven-digit code 1234567. -/
def fetchedSeven : FetchedEmail :=
  { id := "m1", fromText := "ops@logistics.example", toText := "inbox@corp.example",
    subject := "Shipment #1234567", date := 5, text := some "status update",
    attachments := [] }

/-- Counterexample for C4 as stated: the targeted lookup for 123456 returns the
group 1234567, whose canonical code differs from the canonical form of the
requested code - the filter is substring containment, not canonical equality. -/
theorem targetedLookup_counterexample :
    getGroupedEmailGroupsByEmailGroupId [fetchedSeven] "123456"
        = [{ emailGroupId := "1234567", createdAt := 5, updatedAt := 5 }]
    ∧ normalizeEmailGroupId "123456" = "123456"
    ∧ ("1234567" : String) ≠ normalizeEmailGroupId "123456" := by
  refine ⟨by decide, by decide, by decide⟩

/-- Witness for the amended C4 at the same concrete lookup. -/
theorem targetedLookup_code_contains_witness :
    ({ emailGroupId := "1234567", createdAt := 5, updatedAt := 5 } : IEmailGroup)
        ∈ getGroupedEmailGroupsByEmailGroupId [fetchedSeven] "123456"
    ∧ jsIncludes (jsToUpper "1234567") (jsToUpper "123456") = true :=
  ⟨by decide,
    targetedLookup_code_contains [fetchedSeven] "123456"
      { emailGroupId := "1234567", createdAt := 5, updatedAt := 5 } (by decide)⟩

theorem headD_mem {α : Type} (l : List α) (d : α) (h : l ≠ []) : l.headD d ∈ l := by
  cases l with
  | nil => exact absurd rfl h
  | cons a t => simp

theorem getLastD_mem {α : Type} : ∀ (l : List α) (d : α), l ≠ [] → l.getLastD d ∈ l := by
  intro l
  induction l with
  | nil => intro d h; exact absurd rfl h
  | cons a t ih =>
    intro d _
    cases t with
    | nil => simp
    | cons b t2 =>
      rw [List.getLastD_cons]
      exact List.mem_cons_of_mem a (ih a (by simp))

theorem sorted_headD_le (l : List Nat) (hs : List.Sorted (fun a b : Nat => a ≤ b) l) :
    ∀ x ∈ l, l.headD 0 ≤ x := by
  cases l with
  | nil => intro x hx; simp at hx
  | cons a t =>
    intro x hx
    rcases List.mem_cons.mp hx with rfl | hxt
    · simp
    · exact (List.sorted_cons.mp hs).1 x hxt

theorem sorted_le_getLastD :
    ∀ (l : List Nat), List.Sorted (fun a b : Nat => a ≤ b) l → ∀ x ∈ l, x ≤ l.getLastD 0 := by
  intro l
  induction l with
  | nil => intro _ x hx; simp at hx
  | cons a t ih =>
    intro hs x hx
    cases t with
    | nil =>
      rcases List.mem_cons.mp hx with rfl | hxt
      · simp
      · simp at hxt
    | cons b t2 =>
      have hd2 : (a :: b :: t2).getLastD 0 = (b :: t2).getLastD 0 := by
        rw [List.getLastD_cons, List.getLastD_cons, List.getLastD_cons]
      rw [hd2]
      rcases List.mem_cons.mp hx with rfl | hxt
      · have hmem := getLastD_mem (b :: t2) 0 (by simp)
        exact (List.sorted_cons.mp hs).1 _ hmem
      · exact ih (List.sorted_cons.mp hs).2 x hxt

theorem createEmailGroup_spec (emailGroupId : String) (emailList : List IEmail)
    (hne : emailList ≠ []) :
    (createEmailGroup emailGroupId emailList).emailGroupId = emailGroupId
    ∧ (createEmailGroup emailGroupId emailList).createdAt ∈ emailList.map (fun e => e.date)
    ∧ (∀ e ∈ emailList, (createEmailGroup emailGroupId emailList).createdAt ≤ e.date)
    ∧ (createEmailGroup emailGroupId emailList).updatedAt ∈ emailList.map (fun e => e.date)
    ∧ (∀ e ∈ emailList, e.date ≤ (createEmailGroup emailGroupId emailList).updatedAt) := by
  have hperm := List.perm_insertionSort (fun a b : Nat => a ≤ b) (emailList.map (fun e => e.date))
  have hsorted := List.sorted_insertionSort (fun a b : Nat => a ≤ b) (emailList.map (fun e => e.date))
  have hlen : emailList.map (fun e => e.date) ≠ [] := by
    intro h0
    exact hne (List.map_eq_nil_iff.mp h0)
  have hsne : List.insertionSort (fun a b : Nat => a ≤ b) (emailList.map (fun e => e.date)) ≠ [] := by
    intro h0
    apply hlen
    have := hperm.length_eq
    rw [h0] at this
    exact List.length_eq_zero.mp this.symm
  have hcreated : (createEmailGroup emailGroupId emailList).createdAt
      = (List.insertionSort (fun a b : Nat => a ≤ b) (emailList.map (fun e => e.date))).headD 0 := rfl
  have hupdated : (createEmailGroup emailGroupId emailList).updatedAt
      = (List.insertionSort (fun a b : Nat => a ≤ b) (emailList.map (fun e => e.date))).getLastD 0 := rfl
  refine ⟨rfl, ?_, ?_, ?_, ?_⟩
  · rw [hcreated]
    exact hperm.mem_iff.mp (headD_mem _ 0 hsne)
  · intro e he
    rw [hcreated]
    exact sorted_headD_le _ hsorted e.date (hperm.mem_iff.mpr (List.mem_map.mpr ⟨e, he, rfl⟩))
  · rw [hupdated]
    exact hperm.mem_iff.mp (getLastD_mem _ 0 hsne)
  · intro e he
    rw [hupdated]
    exact sorted_le_getLastD _ hsorted e.date (hperm.mem_iff.mpr (List.mem_map.mpr ⟨e, he, rfl⟩))

theorem createFinalEmailGroups_mem (buckets : List (String × List IEmail))
    (p : String × List IEmail) (hp : p ∈ buckets) (hne : p.2 ≠ []) :
    createEmailGroup p.1 p.2 ∈ createFinalEmailGroups buckets := by
  unfold createFinalEmailGroups
  apply (List.perm_insertionSort groupDesc _).mem_iff.mpr
  apply List.mem_map.mpr
  refine ⟨p, ?_, rfl⟩
  apply List.mem_filter.mpr
  refine ⟨hp, ?_⟩
  have : 0 < p.2.length := List.length_pos.mpr hne
  simpa using this

/-- C7: every non-empty bucket produced by the grouper is emitted as a group
whose createdAt is the earliest member date and whose updatedAt is the latest
member date, and the returned list is sorted by updatedAt descending. -/
theorem groupEmails_minmax_sorted (emails : List IEmail) :
    (∀ p ∈ groupBuckets emails, p.2 ≠ [] →
      ∃ g ∈ groupEmailsByEmailGroup emails,
        g.emailGroupId = p.1
        ∧ g.createdAt ∈ p.2.map (fun e => e.date)
        ∧ (∀ e ∈ p.2, g.createdAt ≤ e.date)
        ∧ g.updatedAt ∈ p.2.map (fun e => e.date)
        ∧ (∀ e ∈ p.2, e.date ≤ g.updatedAt))
    ∧ List.Sorted groupDesc (groupEmailsByEmailGroup emails) := by
  constructor
  · intro p hp hne
    obtain ⟨hid, hc1, hc2, hu1, hu2⟩ := createEmailGroup_spec p.1 p.2 hne
    exact ⟨createEmailGroup p.1 p.2, createFinalEmailGroups_mem (groupBuckets emails) p hp hne,
      hid, hc1, hc2, hu1, hu2⟩
  · unfold groupEmailsByEmailGroup createFinalEmailGroups
    exact List.sorted_insertionSort groupDesc _

/-- An email carrying the explicit code 123456, dated 7. -/
def grouperSampleEmail : IEmail :=
  { id := "m2", fromText := "x@y.example", toText := "z@w.example",
    subject := "Shipment # 123456", date := 7, emailGroupId := "123456",
    status := "not_processed", text := "" }

/-- Witness for C7 on the one-bucket input. -/
theorem groupEmails_minmax_sorted_witness :
    ("123456", [grouperSampleEmail]) ∈ groupBuckets [grouperSampleEmail]
    ∧ ([grouperSampleEmail] : List IEmail) ≠ []
    ∧ ∃ g ∈ groupEmailsByEmailGroup [grouperSampleEmail],
        g.emailGroupId = "123456"
        ∧ g.createdAt ∈ [grouperSampleEmail].map (fun e => e.date)
        ∧ (∀ e ∈ [grouperSampleEmail], g.createdAt ≤ e.date)
        ∧ g.updatedAt ∈ [grouperSampleEmail].map (fun e => e.date)
        ∧ (∀ e ∈ [grouperSampleEmail], e.date ≤ g.updatedAt) :=
  ⟨by decide, by decide,
    (groupEmails_minmax_sorted [grouperSampleEmail]).1 ("123456", [grouperSampleEmail])
      (by decide) (by decide)⟩

theorem similarityThreshold_pos : (0 : ℚ) < similarityThreshold := by decide

theorem fuzzyLoop_cons (nid : String) (θ : ℚ) (e : String) (rest : List String)
    (best : Option String) (bs : ℚ) :
    fuzzyLoop nid θ (e :: rest) best bs
      = (if bs < calculateSimilarity nid e ∧ θ ≤ calculateSimilarity nid e
         then fuzzyLoop nid θ rest (some e) (calculateSimilarity nid e)
         else fuzzyLoop nid θ rest best bs) := rfl

theorem fuzzyLoop_correct (nid : String) (θ : ℚ) (hθ : 0 < θ) :
    ∀ (l : List String) (best : Option String) (bs : ℚ),
      (best = none → bs = 0) →
      (∀ b, best = some b → θ ≤ bs ∧ bs = calculateSimilarity nid b) →
      ((fuzzyLoop nid θ l best bs = none ↔
          best = none ∧ ∀ c ∈ l, calculateSimilarity nid c < θ)
      ∧ (∀ c, fuzzyLoop nid θ l best bs = some c →
          θ ≤ calculateSimilarity nid c
          ∧ (∀ d ∈ l, calculateSimilarity nid d ≤ calculateSimilarity nid c)
          ∧ ((best = some c ∧ ∀ d ∈ l, calculateSimilarity nid d ≤ bs)
             ∨ (∃ pre post, l = pre ++ c :: post
                 ∧ bs < calculateSimilarity nid c
                 ∧ ∀ d ∈ pre, calculateSimilarity nid d < calculateSimilarity nid c)))) := by
  intro l
  induction l with
  | nil =>
    intro best bs h0 hbest
    constructor
    · constructor
      · intro h
        exact ⟨h, by intro c hc; simp at hc⟩
      · intro h
        exact h.1
    · intro c hc
      have hbc : best = some c := hc
      obtain ⟨hθb, hbsim⟩ := hbest c hbc
      refine ⟨by rw [← hbsim]; exact hθb, by intro d hd; simp at hd, Or.inl ⟨hbc, ?_⟩⟩
      intro d hd
      simp at hd
  | cons e rest ih =>
    intro best bs h0 hbest
    rw [fuzzyLoop_cons]
    by_cases hcond : bs < calculateSimilarity nid e ∧ θ ≤ calculateSimilarity nid e
    · rw [if_pos hcond]
      obtain ⟨ih1, ih2⟩ := ih (some e) (calculateSimilarity nid e)
        (by intro hh; exact absurd hh (by simp))
        (by
          intro b hb
          have heb : e = b := Option.some_injective _ hb
          subst heb
          exact ⟨hcond.2, rfl⟩)
      constructor
      · constructor
        · intro h
          obtain ⟨habs, _⟩ := ih1.mp h
          exact absurd habs (by simp)
        · rintro ⟨_, hall⟩
          exact absurd (hall e (by simp)) (not_lt.mpr hcond.2)
      · intro c hc
        obtain ⟨h1, h2, h3⟩ := ih2 c hc
        have hdall : ∀ d ∈ e :: rest,
            calculateSimilarity nid d ≤ calculateSimilarity nid c := by
          intro d hd
          rcases List.mem_cons.mp hd with rfl | hdr
          · rcases h3 with ⟨hec, _⟩ | ⟨pre, post, _, hbsc, _⟩
            · have hec2 : d = c := Option.some_injective _ hec
              rw [hec2]
            · exact le_of_lt hbsc
          · exact h2 d hdr
        refine ⟨h1, hdall, Or.inr ?_⟩
        rcases h3 with ⟨hec, _⟩ | ⟨pre, post, hl, hbsc, hpre⟩
        · have hec2 : e = c := Option.some_injective _ hec
          subst hec2
          exact ⟨[], rest, rfl, hcond.1, by intro d hd; simp at hd⟩
        · refine ⟨e :: pre, post, by rw [hl, List.cons_append], lt_trans hcond.1 hbsc, ?_⟩
          intro d hd
          rcases List.mem_cons.mp hd with rfl | hdp
          · exact hbsc
          · exact hpre d hdp
    · rw [if_neg hcond]
      obtain ⟨ih1, ih2⟩ := ih best bs h0 hbest
      constructor
      · constructor
        · intro h
          obtain ⟨hbn, hrest⟩ := ih1.mp h
          refine ⟨hbn, ?_⟩
          intro c hc
          rcases List.mem_cons.mp hc with rfl | hcr
          · by_contra hle
            push_neg at hle
            apply hcond
            exact ⟨by rw [h0 hbn]; exact lt_of_lt_of_le hθ hle, hle⟩
          · exact hrest c hcr
        · rintro ⟨hbn, hall⟩
          exact ih1.mpr ⟨hbn, fun c hc => hall c (List.mem_cons_of_mem e hc)⟩
      · intro c hc
        obtain ⟨h1, h2, h3⟩ := ih2 c hc
        rcases h3 with ⟨hbc, hall⟩ | ⟨pre, post, hl, hbsc, hpre⟩
        · obtain ⟨hθbs, hbs⟩ := hbest c hbc
          have hse : calculateSimilarity nid e ≤ bs := by
            by_contra hgt
            push_neg at hgt
            apply hcond
            refine ⟨hgt, ?_⟩
            by_contra hnth
            push_neg at hnth
            exact absurd (lt_trans (lt_of_le_of_lt hθbs hgt) hnth) (lt_irrefl θ)
          have hse2 : calculateSimilarity nid e ≤ calculateSimilarity nid c := by
            rw [← hbs]
            exact hse
          refine ⟨h1, ?_, Or.inl ⟨hbc, ?_⟩⟩
          · intro d hd
            rcases List.mem_cons.mp hd with rfl | hdr
            · exact hse2
            · exact h2 d hdr
          · intro d hd
            rcases List.mem_cons.mp hd with rfl | hdr
            · exact hse
            · exact hall d hdr
        · have hse : calculateSimilarity nid e < calculateSimilarity nid c := by
            by_cases hsb : calculateSimilarity nid e ≤ bs
            · exact lt_of_le_of_lt hsb hbsc
            · push_neg at hsb
              have hnth : calculateSimilarity nid e < θ := by
                by_contra hth
                push_neg at hth
                exact hcond ⟨hsb, hth⟩
              exact lt_of_lt_of_le hnth h1
          refine ⟨h1, ?_, Or.inr ⟨e :: pre, post, by rw [hl, List.cons_append], hbsc, ?_⟩⟩
          · intro d hd
            rcases List.mem_cons.mp hd with rfl | hdr
            · exact le_of_lt hse
            · exact h2 d hdr
          · intro d hd
            rcases List.mem_cons.mp hd with rfl | hdp
            · exact hse
            · exact hpre d hdp

/-- C5 (amended): findBestFuzzyMatch first canonicalizes the probe with
normalize and compares the normalized probe against the known codes: an exact
member short-circuits (the normalized probe is returned, not the raw probe);
otherwise the known code with the highest similarity at or above the 0.8
threshold is returned (a similarity of exactly the threshold matches), null
when every candidate is strictly below it, and on ties the first candidate in
list order attaining the best score wins. -/
theorem findBestFuzzyMatch_spec (id : String) (existingIds : List String) :
    (existingIds.contains (normalizeEmailGroupId id) = true →
      findBestFuzzyMatch id existingIds similarityThreshold
        = some (normalizeEmailGroupId id))
    ∧ (existingIds.contains (normalizeEmailGroupId id) = false →
        ((findBestFuzzyMatch id existingIds similarityThreshold = none ↔
            ∀ c ∈ existingIds,
              calculateSimilarity (normalizeEmailGroupId id) c < similarityThreshold)
        ∧ (∀ c, findBestFuzzyMatch id existingIds similarityThreshold = some c →
            similarityThreshold ≤ calculateSimilarity (normalizeEmailGroupId id) c
            ∧ (∀ d ∈ existingIds,
                calculateSimilarity (normalizeEmailGroupId id) d
                  ≤ calculateSimilarity (normalizeEmailGroupId id) c)
            ∧ ∃ pre post, existingIds = pre ++ c :: post
                ∧ ∀ d ∈ pre,
                    calculateSimilarity (normalizeEmailGroupId id) d
                      < calculateSimilarity (normalizeEmailGroupId id) c))) := by
  have hunf : findBestFuzzyMatch id existingIds similarityThreshold
      = (if existingIds.contains (normalizeEmailGroupId id)
         then some (normalizeEmailGroupId id)
         else fuzzyLoop (normalizeEmailGroupId id) similarityThreshold existingIds none 0) := rfl
  constructor
  · intro h
    rw [hunf, if_pos h]
  · intro h
    rw [hunf, if_neg (by rw [h]; exact Bool.false_ne_true)]
    obtain ⟨hi, hii⟩ := fuzzyLoop_correct (normalizeEmailGroupId id) similarityThreshold
      similarityThreshold_pos existingIds none 0 (fun _ => rfl)
      (fun b hb => absurd hb (by simp))
    constructor
    · exact hi.trans (and_iff_right rfl)
    · intro c hc
      obtain ⟨h1, h2, h3⟩ := hii c hc
      rcases h3 with ⟨habs, _⟩ | ⟨pre, post, hl, _, hpre⟩
      · exact absurd habs (by simp)
      · exact ⟨h1, h2, pre, post, hl, hpre⟩

/-- Counterexample for C5 as stated: the probe SH-123456 is an exact member of
the known codes, yet the match is null - the exact-member check runs on the
normalized probe 123456, which is not a member, and the fuzzy similarity of
the normalized probe to SH-123456 is 2/3, below the threshold. -/
theorem findBestFuzzyMatch_counterexample :
    ("SH-123456" : String) ∈ ["SH-123456"]
    ∧ findBestFuzzyMatch "SH-123456" ["SH-123456"] similarityThreshold = none := by
  refine ⟨by decide, ?_⟩
  have hn : normalizeEmailGroupId "SH-123456" = "123456" := by decide
  have hs : calculateSimilarity "123456" "SH-123456"
      = max 0 (min 1 (1 - ((levenshteinDistance "123456" "SH-123456" : ℚ))
          / ((max (String.length "123456") (String.length "SH-123456") : ℚ)))) := rfl
  have hld : levenshteinDistance "123456" "SH-123456" = 3 := by decide
  have hl1 : ("123456" : String).length = 6 := rfl
  have hl2 : ("SH-123456" : String).length = 9 := rfl
  have hs2 : calculateSimilarity "123456" "SH-123456" = 2/3 := by
    rw [hs, hld, hl1, hl2]
    norm_num [min_def, max_def]
  have hcond : ¬((0 : ℚ) < calculateSimilarity "123456" "SH-123456"
      ∧ similarityThreshold ≤ calculateSimilarity "123456" "SH-123456") := by
    intro hcontra
    have h2 := hcontra.2
    rw [hs2, similarityThreshold, Rat.mkRat_eq_divInt, Rat.divInt_eq_div] at h2
    norm_num at h2
  have hunf : findBestFuzzyMatch "SH-123456" ["SH-123456"] similarityThreshold
      = (if (["SH-123456"] : List String).contains (normalizeEmailGroupId "SH-123456")
         then some (normalizeEmailGroupId "SH-123456")
         else fuzzyLoop (normalizeEmailGroupId "SH-123456") similarityThreshold
           ["SH-123456"] none 0) := rfl
  rw [hunf, hn]
  rw [if_neg (by decide)]
  rw [fuzzyLoop_cons, if_neg hcond]
  rfl

/-- Witness for the amended C5: an exact (already canonical) member
short-circuits to itself. -/
theorem findBestFuzzyMatch_spec_witness :
    (["123456"] : List String).contains (normalizeEmailGroupId "123456") = true
    ∧ findBestFuzzyMatch "123456" ["123456"] similarityThreshold
        = some (normalizeEmailGroupId "123456") :=
  ⟨by decide, (findBestFuzzyMatch_spec "123456" ["123456"]).1 (by decide)⟩
